import Mathlib

set_option autoImplicit false

/-!
Verification development for the ivadomed pair-assembly and mask
post-processing core (`ivadomed/postprocessing.py` and
`ivadomed/loader/segmentation_pair.py`).

Embedding conventions:
* machine floats are modelled by exact rationals (`ℚ`);
* a numpy array is a flat row-major data list together with a shape and a
  dtype tag (`NpArr`);
* Python exceptions are modelled by an explicit `Except PErr` monad;
* external library primitives (numpy, scipy, nibabel, imageio) are embedded
  by executable Lean functions mirroring their documented behaviour on the
  call patterns that appear in the source.
-/

/-- Python exceptions raised by the embedded code. -/
inductive PErr where
  | runtimeError (msg : String)
  | assertionError
  | indexError
  | typeError
  | keyError
  | valueError
  deriving DecidableEq, Repr

/-- Numpy dtype tags, as far as the embedded code distinguishes them. -/
inductive DType where
  | float32
  | float64
  | int64
  | uint8
  | boolT
  deriving DecidableEq, Repr

/-- Numpy dtype promotion (modelled from numpy's promotion rules for the
pairings that occur in the embedded code). -/
def promoteD (a b : DType) : DType :=
  if a = b then a
  else
    match a, b with
    | .boolT, x => x
    | x, .boolT => x
    | .uint8, x => x
    | x, .uint8 => x
    | .float32, .int64 => .float64
    | .int64, .float32 => .float64
    | .float64, _ => .float64
    | _, .float64 => .float64
    | x, _ => x

/-- A numpy ndarray: shape, dtype tag and flat row-major data. -/
@[ext]
structure NpArr where
  shape : List ℕ
  dtype : DType
  data : List ℚ
  deriving DecidableEq, Repr

/-- Well-formedness: the flat data has exactly as many entries as the shape
prescribes. -/
def NpArr.wf (x : NpArr) : Prop := x.data.length = x.shape.prod

instance (x : NpArr) : Decidable x.wf := by unfold NpArr.wf; infer_instance

/-- Placeholder array used as the default of `List.getD` lookups. -/
def dArr : NpArr := ⟨[], .float32, []⟩

/-- Generate a flat data list of length `n` from an index function
(the embedding of numpy array construction). -/
def genList (n : ℕ) (f : ℕ → ℚ) : List ℚ := (List.range n).map f

theorem genList_length (n : ℕ) (f : ℕ → ℚ) : (genList n f).length = n := by
  simp [genList]

theorem genList_getD (n : ℕ) (f : ℕ → ℚ) (i : ℕ) (h : i < n) :
    (genList n f).getD i 0 = f i := by
  simp [genList, List.getD, List.getElem?_map, List.getElem?_range, h]

/-- Truncation toward zero, the embedding of numpy's cast to a Python
integer dtype (`astype(np.int)`). -/
def ratTruncZ (q : ℚ) : ℚ := if 0 ≤ q then (⌊q⌋ : ℚ) else (⌈q⌉ : ℚ)

/-- The embedding of `np.array_equal(x, x.astype(bool))`: every entry is
0 or 1. -/
def isBinaryArr (x : NpArr) : Bool := x.data.all (fun v => v == 0 || v == 1)

/-- The per-entry effect of the two in-place passes of
`threshold_predictions` followed by the cast to int. -/
def threshStep (thr v : ℚ) : ℚ :=
  ratTruncZ (if thr ≤ (if v < thr then 0 else v) then 1
    else (if v < thr then 0 else v))

/-- `threshold_predictions(predictions, thr)` from
`ivadomed/postprocessing.py`: copy the data, set entries `< thr` to 0, then
set entries of the modified array `>= thr` to 1, and cast to int. -/
def thresholdPredictions (predictions : NpArr) (thr : ℚ) : NpArr :=
  let d1 := predictions.data.map (fun v => if v < thr then 0 else v)
  let d2 := d1.map (fun v => if thr ≤ v then 1 else v)
  ⟨predictions.shape, .int64, d2.map ratTruncZ⟩

theorem thresholdPredictions_data (predictions : NpArr) (thr : ℚ) :
    (thresholdPredictions predictions thr).data =
      predictions.data.map (threshStep thr) := by
  simp [thresholdPredictions, threshStep, List.map_map, Function.comp]

theorem threshold_entry_mem (thr v : ℚ) :
    threshStep thr v = 0 ∨ threshStep thr v = 1 := by
  unfold threshStep
  rcases lt_or_le v thr with h | h
  · simp only [if_pos h]
    rcases le_or_lt thr 0 with h0 | h0
    · right; simp [if_pos h0, ratTruncZ]
    · left; simp [not_le.mpr h0, ratTruncZ]
  · simp only [if_neg (not_lt.mpr h), if_pos h, ratTruncZ]
    norm_num

theorem thresholdPredictions_isBinary (predictions : NpArr) (thr : ℚ) :
    isBinaryArr (thresholdPredictions predictions thr) = true := by
  simp only [isBinaryArr, thresholdPredictions_data, List.all_eq_true]
  intro v hv
  rcases List.mem_map.mp hv with ⟨w, _, rfl⟩
  rcases threshold_entry_mem thr w with h | h <;> simp [h]

/-- Claim C3 — the failing input, evaluated on the embedded code.
`threshold_predictions` applied to the single value `-5` with threshold
`-1` returns `1`, even though `-5 < -1`, because the second in-place pass
re-tests the zeros written by the first pass.  The claim (and the
function's own docstring) demand `0` there. -/
theorem claim_C3 :
    thresholdPredictions ⟨[1], .float32, [-5]⟩ (-1) = ⟨[1], .int64, [1]⟩ ∧
      (-5 : ℚ) < -1 := by
  constructor
  · rfl
  · norm_num

/-- Claim C4 — counterexample: thresholding is not idempotent for
`thr = 2 > 1`: on the single value `5` the first pass yields `1`, and
re-thresholding `1` at `2` yields `0`. -/
theorem claim_C4_counterexample :
    thresholdPredictions (thresholdPredictions ⟨[1], .float32, [5]⟩ 2) 2 ≠
      thresholdPredictions ⟨[1], .float32, [5]⟩ 2 := by
  decide

theorem threshold_step_idem (thr v : ℚ) (h : thr ≤ 1) :
    threshStep thr (threshStep thr v) = threshStep thr v := by
  rcases threshold_entry_mem thr v with h0 | h0 <;> rw [h0]
  · rcases le_or_lt thr 0 with hc | hc
    · exfalso
      unfold threshStep at h0
      rcases lt_or_le v thr with hv | hv
      · rw [if_pos hv, if_pos hc] at h0
        simp [ratTruncZ] at h0
      · rw [if_neg (not_lt.mpr hv), if_pos hv] at h0
        simp [ratTruncZ] at h0
    · unfold threshStep
      rw [if_pos hc, if_neg (not_le.mpr hc)]
      simp [ratTruncZ]
  · unfold threshStep
    rw [if_neg (not_lt.mpr (by linarith : thr ≤ (1:ℚ))), if_pos h]
    simp [ratTruncZ]

/-- Claim C4 (amended) — thresholding is idempotent for every threshold
`thr ≤ 1`:
`threshold(threshold(x, thr), thr) = threshold(x, thr)`. -/
theorem claim_C4 (x : NpArr) (thr : ℚ) (h : thr ≤ 1) :
    thresholdPredictions (thresholdPredictions x thr) thr =
      thresholdPredictions x thr := by
  apply NpArr.ext
  · rfl
  · rfl
  · rw [thresholdPredictions_data, thresholdPredictions_data, List.map_map]
    apply List.map_congr_left
    intro v _
    exact threshold_step_idem thr v h

/-- Claim C4 — witness: idempotence at the concrete array `[3/4, 1/4]`
with threshold `1/2`. -/
theorem claim_C4_witness :
    thresholdPredictions
        (thresholdPredictions ⟨[2], .float32, [3/4, 1/4]⟩ (1/2)) (1/2) =
      thresholdPredictions ⟨[2], .float32, [3/4, 1/4]⟩ (1/2) :=
  claim_C4 ⟨[2], .float32, [3/4, 1/4]⟩ (1/2) (by norm_num)

deriving instance DecidableEq for Except

/-- Largest element of a list of naturals (0 for the empty list). -/
def listMax (l : List ℕ) : ℕ := l.foldr max 0

theorem le_listMax {l : List ℕ} {v : ℕ} (h : v ∈ l) : v ≤ listMax l := by
  induction l with
  | nil => cases h
  | cons a t ih =>
    rcases List.mem_cons.mp h with rfl | ht
    · exact le_max_left _ _
    · exact le_trans (ih ht) (le_max_right _ _)

theorem listMax_mem {l : List ℕ} (h : l ≠ []) : listMax l ∈ l := by
  induction l with
  | nil => exact absurd rfl h
  | cons a t ih =>
    cases t with
    | nil => simp [listMax]
    | cons b u =>
      have hfold : listMax (a :: b :: u) = max a (listMax (b :: u)) := rfl
      rcases max_choice a (listMax (b :: u)) with hm | hm
      · rw [hfold, hm]; exact List.mem_cons_self _ _
      · rw [hfold, hm]; exact List.mem_cons_of_mem _ (ih (by simp))

/-- The embedding of `np.bincount`: counts of each value `0 .. max`. -/
def npBincount (l : List ℕ) : List ℕ :=
  (List.range (listMax l + 1)).map (fun v => l.count v)

/-- The embedding of `np.argmax`: index of the first occurrence of the
maximum value. -/
def npArgmax (l : List ℕ) : ℕ := l.findIdx (fun v => v == listMax l)

theorem npArgmax_lt_length {l : List ℕ} (h : l ≠ []) : npArgmax l < l.length :=
  List.findIdx_lt_length_of_exists ⟨listMax l, listMax_mem h, by simp⟩

theorem npArgmax_getD {l : List ℕ} (h : l ≠ []) :
    l.getD (npArgmax l) 0 = listMax l := by
  have hlt := npArgmax_lt_length h
  rw [List.getD_eq_getElem l 0 hlt]
  have := @List.findIdx_getElem ℕ (fun v => v == listMax l) l hlt
  simpa using this

theorem npArgmax_first {l : List ℕ} {j : ℕ} (hj : j < npArgmax l)
    (hlen : j < l.length) : l.getD j 0 ≠ listMax l := by
  rw [List.getD_eq_getElem l 0 hlen]
  have := @List.not_of_lt_findIdx ℕ (fun v => v == listMax l) l j hj
  simpa using this

/-- Mixed-radix decomposition of a flat row-major index into a
multi-index for the given shape. -/
def unflat : List ℕ → ℕ → List ℕ
  | [], _ => []
  | _ :: rest, p => (p / rest.prod) :: unflat rest (p % rest.prod)

/-- Row-major flattening of a multi-index. -/
def flatIdx (shape idx : List ℕ) : ℕ :=
  ((shape.zip idx).foldl (fun acc q => acc * q.1 + q.2) 0)

/-- Orthogonal (connectivity-1) neighbours of a flat index, the embedding
of scipy's default structuring element for `scipy.ndimage.label`. -/
def orthoNeighbors (shape : List ℕ) (p : ℕ) : List ℕ :=
  let idx := unflat shape p
  (List.range shape.length).flatMap (fun j =>
    (if 0 < idx.getD j 0 then [flatIdx shape (idx.set j (idx.getD j 0 - 1))]
     else []) ++
    (if idx.getD j 0 + 1 < shape.getD j 0 then
      [flatIdx shape (idx.set j (idx.getD j 0 + 1))]
     else []))

/-- Fuel-bounded flood fill marking the connected component of the seed
frontier inside the foreground predicate. -/
def floodFill (adj : ℕ → List ℕ) (fg : ℕ → Bool) :
    ℕ → List ℕ → List Bool → List Bool
  | 0, _, vis => vis
  | _ + 1, [], vis => vis
  | fuel + 1, q :: rest, vis =>
    if fg q && !(vis.getD q false) then
      floodFill adj fg fuel (adj q ++ rest) (vis.set q true)
    else
      floodFill adj fg fuel rest vis

/-- The embedding of `scipy.ndimage.label` with the default structuring
element: label connected foreground components in raster-scan order with
consecutive ids starting at 1; returns the label array and the number of
components. -/
def labelArr (x : NpArr) : List ℕ × ℕ :=
  let N := x.shape.prod
  let fg := fun p => !(x.data.getD p 0 == 0)
  let adj := orthoNeighbors x.shape
  let fuel := (N + 1) * (2 * x.shape.length + 2)
  let st := (List.range N).foldl
    (fun st p =>
      if fg p && !(st.1.getD p false) then
        let vis2 := floodFill adj fg fuel [p] st.1
        let labs2 := (List.range N).map
          (fun q => if vis2.getD q false && !(st.1.getD q false)
            then st.2.2 + 1 else st.2.1.getD q 0)
        (vis2, labs2, st.2.2 + 1)
      else st)
    (List.replicate N false, List.replicate N 0, 0)
  (st.2.1, st.2.2)

/-- First-found label of maximal voxel count, as computed by the source:
`np.bincount(labeled.flat)[1:].argmax() + 1`. -/
def bestLabelOf (labs : List ℕ) : ℕ := npArgmax ((npBincount labs).drop 1) + 1

/-- `mask_predictions(predictions, mask_binary)` from
`ivadomed/postprocessing.py`: assert equal shapes and a 0/1 mask, then
return the elementwise product. -/
def maskPredictionsE (predictions maskBinary : NpArr) : Except PErr NpArr :=
  if predictions.shape ≠ maskBinary.shape then .error .assertionError
  else if !(isBinaryArr maskBinary) then .error .assertionError
  else .ok ⟨predictions.shape, promoteD predictions.dtype maskBinary.dtype,
    (predictions.data.zip maskBinary.data).map (fun q => q.1 * q.2)⟩

/-- The label-and-zero core of `keep_largest_object`: label connected
components of the (already binary) working array and, when more than one
component exists, zero every entry whose label differs from the
first-found largest one. -/
def kloCore (proc1 : NpArr) : NpArr :=
  let lp := labelArr proc1
  if 1 < lp.2 then
    let d2 := (lp.1.zip proc1.data).map
      (fun q => if q.1 ≠ bestLabelOf lp.1 then 0 else q.2)
    { proc1 with data := d2 }
  else proc1

/-- `keep_largest_object(predictions)` from `ivadomed/postprocessing.py`:
binarize non-binary input at 1e-3, label connected components, zero out
everything outside the first-found largest component when more than one
component exists, and re-apply the original soft values through
`mask_predictions` for non-binary input. -/
def kloE (predictions : NpArr) : Except PErr NpArr :=
  let proc1 := if isBinaryArr predictions then predictions
    else thresholdPredictions predictions (1/1000)
  let proc2 := kloCore proc1
  if isBinaryArr predictions then .ok proc2
  else maskPredictionsE predictions proc2

theorem bincount_drop_getD (labs : List ℕ) (j : ℕ) (hj : j < listMax labs) :
    ((npBincount labs).drop 1).getD j 0 = labs.count (j + 1) := by
  have h1 : j + 1 < listMax labs + 1 := by omega
  simp [List.getD, npBincount, List.getElem?_drop, List.getElem?_map,
    List.getElem?_range, h1, Nat.add_comm 1 j]

theorem bincount_drop_length (labs : List ℕ) :
    ((npBincount labs).drop 1).length = listMax labs := by
  simp [npBincount]

theorem bestLabelOf_spec (labs : List ℕ) (l : ℕ) (hl : l ∈ labs)
    (hne : l ≠ 0) :
    labs.count l ≤ labs.count (bestLabelOf labs) ∧
      (labs.count l = labs.count (bestLabelOf labs) → bestLabelOf labs ≤ l) := by
  set M := listMax labs with hM
  have hlM : l ≤ M := le_listMax hl
  have hM1 : 1 ≤ M := le_trans (Nat.one_le_iff_ne_zero.mpr hne) hlM
  set bl := (npBincount labs).drop 1 with hbl
  have hlen : bl.length = M := bincount_drop_length labs
  have hblne : bl ≠ [] := by
    intro hc
    rw [hc] at hlen
    simp at hlen
    omega
  set A := npArgmax bl with hA
  have hAlt : A < M := by
    have := npArgmax_lt_length hblne
    omega
  have hbest : bestLabelOf labs = A + 1 := rfl
  have hcb : labs.count (bestLabelOf labs) = listMax bl := by
    rw [hbest]
    have := bincount_drop_getD labs A hAlt
    rw [← this]
    exact (npArgmax_getD hblne).symm ▸ rfl
  have hl1 : l - 1 < M := by omega
  have hcl : labs.count l = bl.getD (l - 1) 0 := by
    have := bincount_drop_getD labs (l - 1) hl1
    rw [this, Nat.sub_add_cancel (by omega)]
  constructor
  · rw [hcl, hcb]
    have hmem : bl.getD (l - 1) 0 ∈ bl := by
      rw [List.getD_eq_getElem bl 0 (by omega)]
      exact List.getElem_mem _
    exact le_listMax hmem
  · intro hcnt
    rw [hcl, hcb] at hcnt
    by_contra hlt
    have h2 : l - 1 < A := by omega
    exact npArgmax_first h2 (by omega) hcnt

/-- Claim C5 — `keep_largest_object`: (a) a binary array with at most one
connected foreground component is returned unchanged; (b) a binary array
with more than one component is zeroed outside the component whose label
is the first-found (lowest-id) one among those of maximal voxel count;
(c) a non-binary array yields the original soft values masked, via
`mask_predictions`, by the binary keep-largest result of its 1e-3
thresholding. -/
theorem claim_C5 (x : NpArr) :
    (isBinaryArr x = true → (labelArr x).2 ≤ 1 → kloE x = .ok x) ∧
    (isBinaryArr x = true → 1 < (labelArr x).2 →
      (kloE x = .ok ⟨x.shape, x.dtype,
          ((labelArr x).1.zip x.data).map
            (fun q => if q.1 ≠ bestLabelOf (labelArr x).1 then 0 else q.2)⟩ ∧
        (∀ l ∈ (labelArr x).1, l ≠ 0 →
          (labelArr x).1.count l ≤
            (labelArr x).1.count (bestLabelOf (labelArr x).1)) ∧
        (∀ l ∈ (labelArr x).1, l ≠ 0 →
          (labelArr x).1.count l =
            (labelArr x).1.count (bestLabelOf (labelArr x).1) →
          bestLabelOf (labelArr x).1 ≤ l))) ∧
    (isBinaryArr x = false →
      kloE x = (kloE (thresholdPredictions x (1/1000))).bind
        (maskPredictionsE x)) := by
  refine ⟨?_, ?_, ?_⟩
  · intro hb h1
    have h2 : ¬(1 < (labelArr x).2) := not_lt.mpr h1
    simp [kloE, kloCore, hb, h2]
  · intro hb hgt
    refine ⟨?_, ?_, ?_⟩
    · simp [kloE, kloCore, hb, hgt]
    · intro l hl hne
      exact (bestLabelOf_spec (labelArr x).1 l hl hne).1
    · intro l hl hne hcnt
      exact (bestLabelOf_spec (labelArr x).1 l hl hne).2 hcnt
  · intro hb
    have hbt := thresholdPredictions_isBinary x (1/1000)
    have hL : kloE x =
        maskPredictionsE x (kloCore (thresholdPredictions x (1/1000))) := by
      simp only [kloE, hb, Bool.false_eq_true, if_false]
    have hR : kloE (thresholdPredictions x (1/1000)) =
        .ok (kloCore (thresholdPredictions x (1/1000))) := by
      simp only [kloE, hbt, eq_self_iff_true, if_true]
    rw [hL, hR]
    rfl

/-- Claim C5 — witness: the three cases of the theorem instantiated at
concrete arrays (a one-component binary array, a two-component binary
array, and a soft array). -/
theorem claim_C5_witness :
    kloE ⟨[1,3], .float32, [1,1,0]⟩ = .ok ⟨[1,3], .float32, [1,1,0]⟩ ∧
    kloE ⟨[1,3], .float32, [1,0,1]⟩ = .ok ⟨[1,3], .float32,
        ((labelArr ⟨[1,3], .float32, [1,0,1]⟩).1.zip [1,0,1]).map
          (fun q => if q.1 ≠ bestLabelOf (labelArr ⟨[1,3], .float32, [1,0,1]⟩).1
            then 0 else q.2)⟩ ∧
    kloE ⟨[1], .float32, [5]⟩ =
      (kloE (thresholdPredictions ⟨[1], .float32, [5]⟩ (1/1000))).bind
        (maskPredictionsE ⟨[1], .float32, [5]⟩) :=
  ⟨(claim_C5 _).1 (by decide) (by decide),
   ((claim_C5 _).2.1 (by decide) (by decide)).1,
   (claim_C5 _).2.2 (by decide)⟩

/-- Python list subscription `l[i]` (raises `IndexError` out of range). -/
def pyIdx {α : Type} (l : List α) (i : ℕ) : Except PErr α :=
  match l.get? i with
  | some v => .ok v
  | none => .error .indexError

/-- Python `l[0]`. -/
def pyGet0 {α : Type} (l : List α) : Except PErr α := pyIdx l 0

theorem pyIdx_ok {α : Type} (l : List α) (i : ℕ) (d : α) (h : i < l.length) :
    pyIdx l i = .ok (l.getD i d) := by
  unfold pyIdx
  rw [List.getD_eq_getElem l d h]
  rw [List.get?_eq_getElem? l i, List.getElem?_eq_getElem h]

theorem exMapM_ok_length {α β : Type} (f : α → Except PErr β) :
    ∀ (l : List α) (z : List β), l.mapM f = .ok z → z.length = l.length := by
  intro l
  induction l with
  | nil =>
    intro z hz
    rw [List.mapM_nil] at hz
    cases hz
    rfl
  | cons a t ih =>
    intro z hz
    rw [List.mapM_cons] at hz
    cases hfa : f a with
    | error e => rw [hfa] at hz; cases hz
    | ok b =>
      rw [hfa] at hz
      cases hft : t.mapM f with
      | error e => rw [hft] at hz; cases hz
      | ok bs =>
        rw [hft] at hz
        cases hz
        simp [ih bs hft]

theorem exMapM_ok_getD {α β : Type} (f : α → Except PErr β) :
    ∀ (l : List α) (z : List β), l.mapM f = .ok z →
      ∀ (i : ℕ) (da : α) (db : β), i < l.length →
        f (l.getD i da) = .ok (z.getD i db) := by
  intro l
  induction l with
  | nil =>
    intro z _ i _ _ hi
    cases hi
  | cons a t ih =>
    intro z hz i da db hi
    rw [List.mapM_cons] at hz
    cases hfa : f a with
    | error e => rw [hfa] at hz; cases hz
    | ok b =>
      rw [hfa] at hz
      cases hft : t.mapM f with
      | error e => rw [hft] at hz; cases hz
      | ok bs =>
        rw [hft] at hz
        cases hz
        cases i with
        | zero => simpa using hfa
        | succ j =>
          have hj : j < t.length := by simpa using hi
          simpa using ih bs hft j da db hj

theorem exMapM_ok_of_pointwise {α β : Type} (f : α → Except PErr β)
    (g : ℕ → α) (h : ℕ → β) :
    ∀ (p : List ℕ), (∀ i ∈ p, f (g i) = .ok (h i)) →
      (p.map g).mapM f = .ok (p.map h) := by
  intro p
  induction p with
  | nil => intro _; rw [List.map_nil, List.map_nil, List.mapM_nil]; rfl
  | cons i q ih =>
    intro hp
    rw [List.map_cons, List.map_cons, List.mapM_cons]
    rw [hp i (List.mem_cons_self i q), ih (fun j hj => hp j (List.mem_cons_of_mem i hj))]
    rfl

/-- Size of axis `a` of an array. -/
def dimA (x : NpArr) (a : ℕ) : ℕ := x.shape.getD a 0

/-- Shape of a 2D slab of a 3D array taken along axis `a`
(`np.squeeze(np.split(...)[k], axis=a)`). -/
def slabShape (a : ℕ) (s : List ℕ) : List ℕ := s.eraseIdx a

/-- Flat index into the 3D array `s`-shaped data of entry `t` of the
`k`-th unit-thickness slab along axis `a`. -/
def slabIdx (a : ℕ) (s : List ℕ) (k t : ℕ) : ℕ :=
  match s with
  | [_, n1, n2] =>
    match a with
    | 0 => k * (n1 * n2) + t
    | 1 => (t / n2) * (n1 * n2) + k * n2 + t % n2
    | _ => t * n2 + k
  | _ => t

/-- One element of `np.split(x, x.shape[a], axis=a)`: the `k`-th
unit-thickness slab of `x` along axis `a`. -/
def split1 (a k : ℕ) (x : NpArr) : NpArr :=
  ⟨x.shape.set a 1, x.dtype,
    genList ((slabShape a x.shape).prod)
      (fun t => x.data.getD (slabIdx a x.shape k t) 0)⟩

/-- `np.squeeze(y, axis=a)` for a unit-thickness axis: row-major data is
unchanged, the unit axis is removed from the shape. -/
def squeezeA (a : ℕ) (y : NpArr) : NpArr := ⟨y.shape.eraseIdx a, y.dtype, y.data⟩

/-- The `k`-th squeezed 2D slab of a 3D array along axis `a`. -/
def slabAt (a k : ℕ) (x : NpArr) : NpArr := squeezeA a (split1 a k x)

/-- All squeezed 2D slabs of a 3D array along axis `a`, in order. -/
def slabList (a : ℕ) (x : NpArr) : List NpArr :=
  (List.range (dimA x a)).map (fun k => slabAt a k x)

/-- Decomposition of a flat index of the stacked array into
(element index, flat index within the 2D element), for `np.stack` of
2D arrays of shape `s2` along axis `a`. -/
def stackIdx (a : ℕ) (s2 : List ℕ) (m p : ℕ) : ℕ × ℕ :=
  match s2 with
  | [h, w] =>
    match a with
    | 0 => (p / (h * w), p % (h * w))
    | 1 => (p % (m * w) / w, p / (m * w) * w + p % (m * w) % w)
    | _ => (p % m, p / m)
  | _ => (0, p)

/-- Result dtype of `np.stack` (promotion over the element dtypes). -/
def stackDtype (L : List NpArr) : DType :=
  match L with
  | [] => .float32
  | y :: t => t.foldl (fun d z => promoteD d z.dtype) y.dtype

/-- The embedding of `np.stack(L, axis=a)` for a list of 2D arrays:
requires a non-empty list of equal shapes and a valid axis, and
interleaves the element data along the new axis. -/
def stackE (a : ℕ) (L : List NpArr) : Except PErr NpArr :=
  match L with
  | [] => .error .valueError
  | y :: _ =>
    if hsh : ∀ z ∈ L, z.shape = y.shape then
      match y.shape with
      | [h, w] =>
        if a ≤ 2 then
          let sh := y.shape.insertIdx a L.length
          .ok ⟨sh, stackDtype L,
            genList sh.prod (fun p =>
              (L.getD (stackIdx a [h, w] L.length p).1 dArr).data.getD
                (stackIdx a [h, w] L.length p).2 0)⟩
        else .error .valueError
      | _ => .error .valueError
    else .error .valueError

/-- `keep_largest_object_per_slice(predictions, axis)` from
`ivadomed/postprocessing.py`: split into unit-thickness slabs along
`axis` (`np.split`), squeeze each slab to 2D, apply
`keep_largest_object`, and restack along the same axis (`np.stack`). -/
def klopsE (predictions : NpArr) (axis : ℕ) : Except PErr NpArr :=
  match pyIdx predictions.shape axis with
  | .error e => .error e
  | .ok n =>
    if n = 0 then .error .valueError
    else
      match ((List.range n).map (fun k => split1 axis k predictions)).mapM
          (fun p => kloE (squeezeA axis p)) with
      | .error e => .error e
      | .ok processed => stackE axis processed

theorem exMapM_ok_exists {α β : Type} (f : α → Except PErr β) :
    ∀ (l : List α), (∀ v ∈ l, ∃ b, f v = .ok b) →
      ∃ z : List β, l.mapM f = .ok z := by
  intro l
  induction l with
  | nil => intro _; exact ⟨[], by rw [List.mapM_nil]; rfl⟩
  | cons a t ih =>
    intro hl
    obtain ⟨b, hb⟩ := hl a (List.mem_cons_self a t)
    obtain ⟨bs, hbs⟩ := ih (fun v hv => hl v (List.mem_cons_of_mem a hv))
    exact ⟨b :: bs, by rw [List.mapM_cons, hb, hbs]; rfl⟩

theorem kloCore_shape (y : NpArr) : (kloCore y).shape = y.shape := by
  simp only [kloCore]
  split <;> rfl

theorem kloCore_data_mem (y : NpArr) :
    ∀ v ∈ (kloCore y).data, v = 0 ∨ v ∈ y.data := by
  simp only [kloCore]
  split
  · intro v hv
    rcases List.mem_map.mp hv with ⟨q, hq, rfl⟩
    by_cases hb : q.1 ≠ bestLabelOf (labelArr y).1
    · left; simp [hb]
    · right
      rw [if_neg hb]
      exact (List.of_mem_zip hq).2
  · intro v hv
    right
    exact hv

theorem kloCore_binary (y : NpArr) (hb : isBinaryArr y = true) :
    isBinaryArr (kloCore y) = true := by
  simp only [isBinaryArr, List.all_eq_true] at hb ⊢
  intro v hv
  rcases kloCore_data_mem y v hv with h0 | hm
  · simp [h0]
  · exact hb v hm

theorem kloE_ok (y : NpArr) : ∃ z, kloE y = .ok z ∧ z.shape = y.shape := by
  cases hb : isBinaryArr y with
  | true =>
    refine ⟨kloCore y, ?_, kloCore_shape y⟩
    simp only [kloE, hb, eq_self_iff_true, if_true]
  | false =>
    have hbt : isBinaryArr (thresholdPredictions y (1/1000)) = true :=
      thresholdPredictions_isBinary y (1/1000)
    have hms : (kloCore (thresholdPredictions y (1/1000))).shape = y.shape := by
      rw [kloCore_shape]; rfl
    have hmb := kloCore_binary (thresholdPredictions y (1/1000)) hbt
    have hL : kloE y =
        maskPredictionsE y (kloCore (thresholdPredictions y (1/1000))) := by
      simp only [kloE, hb, Bool.false_eq_true, if_false]
    refine ⟨⟨y.shape,
      promoteD y.dtype (kloCore (thresholdPredictions y (1/1000))).dtype,
      (y.data.zip (kloCore (thresholdPredictions y (1/1000))).data).map
        (fun q => q.1 * q.2)⟩, ?_, rfl⟩
    rw [hL]
    unfold maskPredictionsE
    rw [if_neg (fun hc => hc hms.symm), if_neg (by rw [hmb]; simp)]

theorem promoteD_self (d : DType) : promoteD d d = d := by
  simp [promoteD]

theorem foldl_promote_uniform (dt : DType) :
    ∀ (t : List NpArr), (∀ z ∈ t, z.dtype = dt) →
      t.foldl (fun d z => promoteD d z.dtype) dt = dt := by
  intro t
  induction t with
  | nil => intro _; rfl
  | cons z u ih =>
    intro hz
    rw [List.foldl_cons, hz z (List.mem_cons_self z u), promoteD_self]
    exact ih (fun v hv => hz v (List.mem_cons_of_mem z hv))

theorem stackDtype_uniform (L : List NpArr) (dt : DType) (hne : L ≠ [])
    (hdt : ∀ z ∈ L, z.dtype = dt) : stackDtype L = dt := by
  cases L with
  | nil => exact absurd rfl hne
  | cons y t =>
    rw [show stackDtype (y :: t) =
      t.foldl (fun d z => promoteD d z.dtype) y.dtype from rfl]
    rw [hdt y (List.mem_cons_self y t)]
    exact foldl_promote_uniform dt t
      (fun v hv => hdt v (List.mem_cons_of_mem y hv))

theorem rangeMap_getD {α : Type} (d : α) (n : ℕ) (f : ℕ → α) (i : ℕ)
    (h : i < n) : ((List.range n).map f).getD i d = f i := by
  simp [List.getD, List.getElem?_map, List.getElem?_range, h]

theorem list_eq_of_getD {α : Type} (d : α) (l₁ l₂ : List α)
    (hlen : l₁.length = l₂.length)
    (h : ∀ i < l₁.length, l₁.getD i d = l₂.getD i d) : l₁ = l₂ := by
  apply List.ext_getElem hlen
  intro n h₁ h₂
  have := h n h₁
  rwa [List.getD_eq_getElem l₁ d h₁, List.getD_eq_getElem l₂ d h₂] at this

theorem stackE_ok (a : ℕ) (ha : a ≤ 2) (h w : ℕ) (y : NpArr) (t : List NpArr)
    (hsh : ∀ z ∈ (y :: t), z.shape = [h, w]) :
    stackE a (y :: t) = .ok ⟨[h, w].insertIdx a (y :: t).length,
      stackDtype (y :: t),
      genList (([h, w].insertIdx a (y :: t).length).prod) (fun p =>
        ((y :: t).getD (stackIdx a [h, w] (y :: t).length p).1 dArr).data.getD
          (stackIdx a [h, w] (y :: t).length p).2 0)⟩ := by
  have hy : y.shape = [h, w] := hsh y (List.mem_cons_self y t)
  cases y with
  | mk ys yd ydata =>
    simp only at hy
    subst hy
    simp only [stackE]
    rw [dif_pos hsh, if_pos ha]

theorem stackIdx_zero (h w m k t : ℕ) (hk : k < m) (ht : t < h * w) :
    stackIdx 0 [h, w] m (k * (h * w) + t) = (k, t) := by
  have hw : 0 < h * w := by omega
  have h1 : (k * (h * w) + t) / (h * w) = k := by
    rw [Nat.mul_comm k (h * w), Nat.mul_add_div hw, Nat.div_eq_of_lt ht,
      Nat.add_zero]
  have h2 : (k * (h * w) + t) % (h * w) = t := by
    rw [Nat.mul_comm k (h * w), Nat.mul_add_mod, Nat.mod_eq_of_lt ht]
  simp [stackIdx, h1, h2]

theorem stackIdx_two (h w m k t : ℕ) (hk : k < m) (ht : t < h * w) :
    stackIdx 2 [h, w] m (t * m + k) = (k, t) := by
  have hm0 : 0 < m := by omega
  have h1 : (t * m + k) % m = k := by
    rw [Nat.mul_comm t m, Nat.mul_add_mod, Nat.mod_eq_of_lt hk]
  have h2 : (t * m + k) / m = t := by
    rw [Nat.mul_comm t m, Nat.mul_add_div hm0, Nat.div_eq_of_lt hk,
      Nat.add_zero]
  simp [stackIdx, h1, h2]

theorem stackIdx_one (h w m k t : ℕ) (hk : k < m) (ht : t < h * w) :
    stackIdx 1 [h, w] m (t / w * (m * w) + k * w + t % w) = (k, t) := by
  have hw : 0 < w := by
    rcases Nat.eq_zero_or_pos w with h0 | h0
    · subst h0; omega
    · exact h0
  have hmod : t % w < w := Nat.mod_lt _ hw
  have hr : k * w + t % w < m * w := by
    calc k * w + t % w < k * w + w := by omega
    _ = (k + 1) * w := by ring
    _ ≤ m * w := Nat.mul_le_mul_right w (by omega)
  have hmw : 0 < m * w := by omega
  have hassoc : t / w * (m * w) + k * w + t % w =
      (m * w) * (t / w) + (k * w + t % w) := by ring
  have e1 : (t / w * (m * w) + k * w + t % w) / (m * w) = t / w := by
    rw [hassoc, Nat.mul_add_div hmw, Nat.div_eq_of_lt hr, Nat.add_zero]
  have e2 : (t / w * (m * w) + k * w + t % w) % (m * w) = k * w + t % w := by
    rw [hassoc, Nat.mul_add_mod, Nat.mod_eq_of_lt hr]
  have e3 : (k * w + t % w) / w = k := by
    rw [Nat.mul_comm k w, Nat.mul_add_div hw, Nat.div_eq_of_lt hmod,
      Nat.add_zero]
  have e4 : (k * w + t % w) % w = t % w := by
    rw [Nat.mul_comm k w, Nat.mul_add_mod, Nat.mod_eq_of_lt hmod]
  have e5 : t / w * w + t % w = t := by
    rw [Nat.mul_comm (t / w) w]
    exact Nat.div_add_mod t w
  simp [stackIdx, e1, e2, e3, e4, e5]

theorem slabIdx_lt_zero (h w m k t : ℕ) (hk : k < m) (ht : t < h * w) :
    k * (h * w) + t < m * (h * w) := by
  calc k * (h * w) + t < k * (h * w) + h * w := by omega
  _ = (k + 1) * (h * w) := by ring
  _ ≤ m * (h * w) := Nat.mul_le_mul_right (h * w) (by omega)

theorem slabIdx_lt_one (h w m k t : ℕ) (hk : k < m) (ht : t < h * w) :
    t / w * (m * w) + k * w + t % w < h * (m * w) := by
  have hw : 0 < w := by
    rcases Nat.eq_zero_or_pos w with h0 | h0
    · subst h0; omega
    · exact h0
  have hdiv : t / w < h := (Nat.div_lt_iff_lt_mul hw).mpr ht
  have hr : k * w + t % w < m * w := by
    have hmod : t % w < w := Nat.mod_lt _ hw
    calc k * w + t % w < k * w + w := by omega
    _ = (k + 1) * w := by ring
    _ ≤ m * w := Nat.mul_le_mul_right w (by omega)
  calc t / w * (m * w) + k * w + t % w
      = t / w * (m * w) + (k * w + t % w) := by ring
  _ < t / w * (m * w) + m * w := by omega
  _ = (t / w + 1) * (m * w) := by ring
  _ ≤ h * (m * w) := Nat.mul_le_mul_right (m * w) (by omega)

theorem slabIdx_lt_two (h w m k t : ℕ) (hk : k < m) (ht : t < h * w) :
    t * m + k < h * (w * m) := by
  calc t * m + k < t * m + m := by omega
  _ = (t + 1) * m := by ring
  _ ≤ (h * w) * m := Nat.mul_le_mul_right m (by omega)
  _ = h * (w * m) := by ring

theorem slabList_getD (a k : ℕ) (x : NpArr) (hk : k < dimA x a) :
    (slabList a x).getD k dArr = slabAt a k x := by
  unfold slabList
  exact rangeMap_getD dArr _ _ k hk

theorem roundtrip_zero (h w m : ℕ) (L : List NpArr) (hm : L.length = m)
    (hne : L ≠ []) (hsh : ∀ z ∈ L, z.shape = [h, w])
    (hwf : ∀ z ∈ L, z.data.length = h * w)
    (dt : DType) (hdt : ∀ z ∈ L, z.dtype = dt) :
    slabList 0 ⟨[m, h, w], stackDtype L,
      genList (([m, h, w] : List ℕ).prod)
        (fun p => (L.getD (stackIdx 0 [h, w] m p).1 dArr).data.getD
          (stackIdx 0 [h, w] m p).2 0)⟩ = L := by
  have hQ : (([h, w]) : List ℕ).prod = h * w := by
    show h * (w * 1) = h * w
    ring
  set X : NpArr := ⟨[m, h, w], stackDtype L,
    genList (([m, h, w] : List ℕ).prod)
      (fun p => (L.getD (stackIdx 0 [h, w] m p).1 dArr).data.getD
        (stackIdx 0 [h, w] m p).2 0)⟩ with hX
  apply list_eq_of_getD dArr
  · simp [slabList, dimA, hm, hX]
  · intro k hk
    have hk' : k < m := by simpa [slabList, dimA, hX] using hk
    have hkL : k < L.length := by omega
    have hmem : L.getD k dArr ∈ L := by
      rw [List.getD_eq_getElem L dArr hkL]
      exact List.getElem_mem _
    rw [slabList_getD 0 k X hk']
    apply NpArr.ext
    · rw [hsh _ hmem]
      rfl
    · show stackDtype L = (L.getD k dArr).dtype
      rw [stackDtype_uniform L dt hne hdt, hdt _ hmem]
    · show genList (([h, w] : List ℕ).prod) (fun t0 =>
          (genList (([m, h, w] : List ℕ).prod) (fun p =>
            (L.getD (stackIdx 0 [h, w] m p).1 dArr).data.getD
              (stackIdx 0 [h, w] m p).2 0)).getD (slabIdx 0 [m, h, w] k t0) 0)
        = (L.getD k dArr).data
      apply list_eq_of_getD 0
      · rw [genList_length, hwf _ hmem, hQ]
      · intro t0 ht0
        rw [genList_length, hQ] at ht0
        rw [genList_getD _ _ t0 (by simpa using ht0)]
        rw [show slabIdx 0 [m, h, w] k t0 = k * (h * w) + t0 from rfl]
        rw [genList_getD _ _ _ (by simpa using slabIdx_lt_zero h w m k t0 hk' ht0)]
        rw [stackIdx_zero h w m k t0 hk' ht0]

theorem roundtrip_one (h w m : ℕ) (L : List NpArr) (hm : L.length = m)
    (hne : L ≠ []) (hsh : ∀ z ∈ L, z.shape = [h, w])
    (hwf : ∀ z ∈ L, z.data.length = h * w)
    (dt : DType) (hdt : ∀ z ∈ L, z.dtype = dt) :
    slabList 1 ⟨[h, m, w], stackDtype L,
      genList (([h, m, w] : List ℕ).prod)
        (fun p => (L.getD (stackIdx 1 [h, w] m p).1 dArr).data.getD
          (stackIdx 1 [h, w] m p).2 0)⟩ = L := by
  have hQ : (([h, w]) : List ℕ).prod = h * w := by
    show h * (w * 1) = h * w
    ring
  set X : NpArr := ⟨[h, m, w], stackDtype L,
    genList (([h, m, w] : List ℕ).prod)
      (fun p => (L.getD (stackIdx 1 [h, w] m p).1 dArr).data.getD
        (stackIdx 1 [h, w] m p).2 0)⟩ with hX
  apply list_eq_of_getD dArr
  · simp [slabList, dimA, hm, hX]
  · intro k hk
    have hk' : k < m := by simpa [slabList, dimA, hX] using hk
    have hkL : k < L.length := by omega
    have hmem : L.getD k dArr ∈ L := by
      rw [List.getD_eq_getElem L dArr hkL]
      exact List.getElem_mem _
    rw [slabList_getD 1 k X hk']
    apply NpArr.ext
    · rw [hsh _ hmem]
      rfl
    · show stackDtype L = (L.getD k dArr).dtype
      rw [stackDtype_uniform L dt hne hdt, hdt _ hmem]
    · show genList (([h, w] : List ℕ).prod) (fun t0 =>
          (genList (([h, m, w] : List ℕ).prod) (fun p =>
            (L.getD (stackIdx 1 [h, w] m p).1 dArr).data.getD
              (stackIdx 1 [h, w] m p).2 0)).getD (slabIdx 1 [h, m, w] k t0) 0)
        = (L.getD k dArr).data
      apply list_eq_of_getD 0
      · rw [genList_length, hwf _ hmem, hQ]
      · intro t0 ht0
        rw [genList_length, hQ] at ht0
        rw [genList_getD _ _ t0 (by simpa using ht0)]
        rw [show slabIdx 1 [h, m, w] k t0 =
          t0 / w * (m * w) + k * w + t0 % w from rfl]
        rw [genList_getD _ _ _ (by simpa using slabIdx_lt_one h w m k t0 hk' ht0)]
        rw [stackIdx_one h w m k t0 hk' ht0]

theorem roundtrip_two (h w m : ℕ) (L : List NpArr) (hm : L.length = m)
    (hne : L ≠ []) (hsh : ∀ z ∈ L, z.shape = [h, w])
    (hwf : ∀ z ∈ L, z.data.length = h * w)
    (dt : DType) (hdt : ∀ z ∈ L, z.dtype = dt) :
    slabList 2 ⟨[h, w, m], stackDtype L,
      genList (([h, w, m] : List ℕ).prod)
        (fun p => (L.getD (stackIdx 2 [h, w] m p).1 dArr).data.getD
          (stackIdx 2 [h, w] m p).2 0)⟩ = L := by
  have hQ : (([h, w]) : List ℕ).prod = h * w := by
    show h * (w * 1) = h * w
    ring
  set X : NpArr := ⟨[h, w, m], stackDtype L,
    genList (([h, w, m] : List ℕ).prod)
      (fun p => (L.getD (stackIdx 2 [h, w] m p).1 dArr).data.getD
        (stackIdx 2 [h, w] m p).2 0)⟩ with hX
  apply list_eq_of_getD dArr
  · simp [slabList, dimA, hm, hX]
  · intro k hk
    have hk' : k < m := by simpa [slabList, dimA, hX] using hk
    have hkL : k < L.length := by omega
    have hmem : L.getD k dArr ∈ L := by
      rw [List.getD_eq_getElem L dArr hkL]
      exact List.getElem_mem _
    rw [slabList_getD 2 k X hk']
    apply NpArr.ext
    · rw [hsh _ hmem]
      rfl
    · show stackDtype L = (L.getD k dArr).dtype
      rw [stackDtype_uniform L dt hne hdt, hdt _ hmem]
    · show genList (([h, w] : List ℕ).prod) (fun t0 =>
          (genList (([h, w, m] : List ℕ).prod) (fun p =>
            (L.getD (stackIdx 2 [h, w] m p).1 dArr).data.getD
              (stackIdx 2 [h, w] m p).2 0)).getD (slabIdx 2 [h, w, m] k t0) 0)
        = (L.getD k dArr).data
      apply list_eq_of_getD 0
      · rw [genList_length, hwf _ hmem, hQ]
      · intro t0 ht0
        rw [genList_length, hQ] at ht0
        rw [genList_getD _ _ t0 (by simpa using ht0)]
        rw [show slabIdx 2 [h, w, m] k t0 = t0 * m + k from rfl]
        rw [genList_getD _ _ _ (by simpa using slabIdx_lt_two h w m k t0 hk' ht0)]
        rw [stackIdx_two h w m k t0 hk' ht0]

theorem exMapM_map {α β γ : Type} (f : β → Except PErr γ) (g : α → β)
    (l : List α) : (l.map g).mapM f = l.mapM (fun v => f (g v)) := by
  induction l with
  | nil => rfl
  | cons a t ih => rw [List.map_cons, List.mapM_cons, List.mapM_cons, ih]

theorem klopsE_eval (x : NpArr) (a : ℕ) (ha : a < 3) (h3 : x.shape.length = 3)
    (hd : 1 ≤ dimA x a) (Z : List NpArr)
    (hZ : (slabList a x).mapM kloE = .ok Z) :
    klopsE x a = stackE a Z := by
  have hpy : pyIdx x.shape a = .ok (x.shape.getD a 0) :=
    pyIdx_ok x.shape a 0 (by omega)
  have hd' : ¬ (x.shape.getD a 0 = 0) := by
    unfold dimA at hd
    omega
  have hZ' := hZ
  unfold slabList at hZ'
  unfold slabAt at hZ'
  unfold dimA at hZ'
  rw [exMapM_map] at hZ'
  unfold klopsE
  rw [hpy]
  show (if x.shape.getD a 0 = 0 then Except.error PErr.valueError
    else match ((List.range (x.shape.getD a 0)).map
        (fun k => split1 a k x)).mapM (fun p => kloE (squeezeA a p)) with
      | .error e => .error e
      | .ok processed => stackE a processed) = stackE a Z
  rw [if_neg hd']
  rw [exMapM_map]
  rw [hZ']

/-- Claim C8 — `keep_largest_object_per_slice` equals splitting into 2D
slabs along the axis, applying `keep_largest_object` to each slab
independently, and restacking in order; moreover, permuting the input
slabs permutes the per-slab results by the same permutation. -/
theorem claim_C8 (x : NpArr) (a : ℕ) (ha : a < 3) (h3 : x.shape.length = 3)
    (hd : 1 ≤ dimA x a) :
    ∃ Z, (slabList a x).mapM kloE = .ok Z ∧
      klopsE x a = ((slabList a x).mapM kloE).bind (stackE a) ∧
      (∀ (p : List ℕ) (xp : NpArr), p ≠ [] → (∀ i ∈ p, i < dimA x a) →
        stackE a (p.map (fun i => (slabList a x).getD i dArr)) = .ok xp →
        klopsE xp a = stackE a (p.map (fun i => Z.getD i dArr))) := by
  obtain ⟨Z, hZ⟩ := exMapM_ok_exists kloE (slabList a x)
    (fun v _ => (kloE_ok v).imp (fun z hz => hz.1))
  refine ⟨Z, hZ, ?_, ?_⟩
  · rw [klopsE_eval x a ha h3 hd Z hZ, hZ]
    rfl
  · intro p xp hp hbound hstack
    have hlenS : (slabList a x).length = dimA x a := by
      simp [slabList]
    have hpoint : ∀ i ∈ p,
        kloE ((slabList a x).getD i dArr) = .ok (Z.getD i dArr) :=
      fun i hi => exMapM_ok_getD kloE _ Z hZ i dArr dArr
        (by rw [hlenS]; exact hbound i hi)
    have hslab : ∀ i, i < dimA x a →
        (slabList a x).getD i dArr = slabAt a i x :=
      fun i hi => slabList_getD a i x hi
    obtain ⟨n0, n1, n2, hxsh⟩ := List.length_eq_three.mp h3
    obtain ⟨i0, pt, rfl⟩ : ∃ i0 pt, p = i0 :: pt := by
      cases p with
      | nil => exact absurd rfl hp
      | cons i0 pt => exact ⟨i0, pt, rfl⟩
    rcases (by omega : a = 0 ∨ a = 1 ∨ a = 2) with rfl | rfl | rfl
    · have hMsh : ∀ z ∈ (i0 :: pt).map
          (fun i => (slabList 0 x).getD i dArr), z.shape = [n1, n2] := by
        intro z hz
        rcases List.mem_map.mp hz with ⟨i, hi, rfl⟩
        rw [hslab i (hbound i hi)]
        show ((x.shape.set 0 1).eraseIdx 0) = [n1, n2]
        rw [hxsh]
        rfl
      have hMwf : ∀ z ∈ (i0 :: pt).map
          (fun i => (slabList 0 x).getD i dArr), z.data.length = n1 * n2 := by
        intro z hz
        rcases List.mem_map.mp hz with ⟨i, hi, rfl⟩
        rw [hslab i (hbound i hi)]
        show (genList ((slabShape 0 x.shape).prod)
          (fun t => x.data.getD (slabIdx 0 x.shape i t) 0)).length = n1 * n2
        rw [genList_length, hxsh]
        show n1 * (n2 * 1) = n1 * n2
        ring
      have hMdt : ∀ z ∈ (i0 :: pt).map
          (fun i => (slabList 0 x).getD i dArr), z.dtype = x.dtype := by
        intro z hz
        rcases List.mem_map.mp hz with ⟨i, hi, rfl⟩
        rw [hslab i (hbound i hi)]
        rfl
      rw [List.map_cons] at hstack
      rw [stackE_ok 0 (by omega) n1 n2 _ _ hMsh] at hstack
      injection hstack with hxp
      have hxpsh : xp.shape = List.insertIdx 0
          ((slabList 0 x).getD i0 dArr :: pt.map
            (fun i => (slabList 0 x).getD i dArr)).length [n1, n2] := by
        rw [← hxp]
      have h3' : xp.shape.length = 3 := by rw [hxpsh]; rfl
      have hd2 : 1 ≤ dimA xp 0 := by
        unfold dimA
        rw [hxpsh]
        show 1 ≤ ((slabList 0 x).getD i0 dArr :: pt.map
          (fun i => (slabList 0 x).getD i dArr)).length
        simp
      have hslabxp : slabList 0 xp = (slabList 0 x).getD i0 dArr :: pt.map
          (fun i => (slabList 0 x).getD i dArr) := by
        rw [← hxp]
        exact roundtrip_zero n1 n2 _ _ rfl (by simp) hMsh hMwf x.dtype hMdt
      have hZp : (slabList 0 xp).mapM kloE =
          .ok ((i0 :: pt).map (fun i => Z.getD i dArr)) := by
        rw [hslabxp]
        exact exMapM_ok_of_pointwise kloE _ _ (i0 :: pt) hpoint
      exact klopsE_eval xp 0 (by omega) h3' hd2 _ hZp
    · have hMsh : ∀ z ∈ (i0 :: pt).map
          (fun i => (slabList 1 x).getD i dArr), z.shape = [n0, n2] := by
        intro z hz
        rcases List.mem_map.mp hz with ⟨i, hi, rfl⟩
        rw [hslab i (hbound i hi)]
        show ((x.shape.set 1 1).eraseIdx 1) = [n0, n2]
        rw [hxsh]
        rfl
      have hMwf : ∀ z ∈ (i0 :: pt).map
          (fun i => (slabList 1 x).getD i dArr), z.data.length = n0 * n2 := by
        intro z hz
        rcases List.mem_map.mp hz with ⟨i, hi, rfl⟩
        rw [hslab i (hbound i hi)]
        show (genList ((slabShape 1 x.shape).prod)
          (fun t => x.data.getD (slabIdx 1 x.shape i t) 0)).length = n0 * n2
        rw [genList_length, hxsh]
        show n0 * (n2 * 1) = n0 * n2
        ring
      have hMdt : ∀ z ∈ (i0 :: pt).map
          (fun i => (slabList 1 x).getD i dArr), z.dtype = x.dtype := by
        intro z hz
        rcases List.mem_map.mp hz with ⟨i, hi, rfl⟩
        rw [hslab i (hbound i hi)]
        rfl
      rw [List.map_cons] at hstack
      rw [stackE_ok 1 (by omega) n0 n2 _ _ hMsh] at hstack
      injection hstack with hxp
      have hxpsh : xp.shape = List.insertIdx 1
          ((slabList 1 x).getD i0 dArr :: pt.map
            (fun i => (slabList 1 x).getD i dArr)).length [n0, n2] := by
        rw [← hxp]
      have h3' : xp.shape.length = 3 := by rw [hxpsh]; rfl
      have hd2 : 1 ≤ dimA xp 1 := by
        unfold dimA
        rw [hxpsh]
        show 1 ≤ ((slabList 1 x).getD i0 dArr :: pt.map
          (fun i => (slabList 1 x).getD i dArr)).length
        simp
      have hslabxp : slabList 1 xp = (slabList 1 x).getD i0 dArr :: pt.map
          (fun i => (slabList 1 x).getD i dArr) := by
        rw [← hxp]
        exact roundtrip_one n0 n2 _ _ rfl (by simp) hMsh hMwf x.dtype hMdt
      have hZp : (slabList 1 xp).mapM kloE =
          .ok ((i0 :: pt).map (fun i => Z.getD i dArr)) := by
        rw [hslabxp]
        exact exMapM_ok_of_pointwise kloE _ _ (i0 :: pt) hpoint
      exact klopsE_eval xp 1 (by omega) h3' hd2 _ hZp
    · have hMsh : ∀ z ∈ (i0 :: pt).map
          (fun i => (slabList 2 x).getD i dArr), z.shape = [n0, n1] := by
        intro z hz
        rcases List.mem_map.mp hz with ⟨i, hi, rfl⟩
        rw [hslab i (hbound i hi)]
        show ((x.shape.set 2 1).eraseIdx 2) = [n0, n1]
        rw [hxsh]
        rfl
      have hMwf : ∀ z ∈ (i0 :: pt).map
          (fun i => (slabList 2 x).getD i dArr), z.data.length = n0 * n1 := by
        intro z hz
        rcases List.mem_map.mp hz with ⟨i, hi, rfl⟩
        rw [hslab i (hbound i hi)]
        show (genList ((slabShape 2 x.shape).prod)
          (fun t => x.data.getD (slabIdx 2 x.shape i t) 0)).length = n0 * n1
        rw [genList_length, hxsh]
        show n0 * (n1 * 1) = n0 * n1
        ring
      have hMdt : ∀ z ∈ (i0 :: pt).map
          (fun i => (slabList 2 x).getD i dArr), z.dtype = x.dtype := by
        intro z hz
        rcases List.mem_map.mp hz with ⟨i, hi, rfl⟩
        rw [hslab i (hbound i hi)]
        rfl
      rw [List.map_cons] at hstack
      rw [stackE_ok 2 (by omega) n0 n1 _ _ hMsh] at hstack
      injection hstack with hxp
      have hxpsh : xp.shape = List.insertIdx 2
          ((slabList 2 x).getD i0 dArr :: pt.map
            (fun i => (slabList 2 x).getD i dArr)).length [n0, n1] := by
        rw [← hxp]
      have h3' : xp.shape.length = 3 := by rw [hxpsh]; rfl
      have hd2 : 1 ≤ dimA xp 2 := by
        unfold dimA
        rw [hxpsh]
        show 1 ≤ ((slabList 2 x).getD i0 dArr :: pt.map
          (fun i => (slabList 2 x).getD i dArr)).length
        simp
      have hslabxp : slabList 2 xp = (slabList 2 x).getD i0 dArr :: pt.map
          (fun i => (slabList 2 x).getD i dArr) := by
        rw [← hxp]
        exact roundtrip_two n0 n1 _ _ rfl (by simp) hMsh hMwf x.dtype hMdt
      have hZp : (slabList 2 xp).mapM kloE =
          .ok ((i0 :: pt).map (fun i => Z.getD i dArr)) := by
        rw [hslabxp]
        exact exMapM_ok_of_pointwise kloE _ _ (i0 :: pt) hpoint
      exact klopsE_eval xp 2 (by omega) h3' hd2 _ hZp

/-- Claim C8 — witness: the theorem instantiated at the concrete
1×1×2 array `[1, 0]` along axis 2. -/
theorem claim_C8_witness :
    ∃ Z, (slabList 2 ⟨[1, 1, 2], .float32, [1, 0]⟩).mapM kloE = .ok Z ∧
      klopsE ⟨[1, 1, 2], .float32, [1, 0]⟩ 2 =
        ((slabList 2 ⟨[1, 1, 2], .float32, [1, 0]⟩).mapM kloE).bind
          (stackE 2) ∧
      (∀ (p : List ℕ) (xp : NpArr), p ≠ [] →
        (∀ i ∈ p, i < dimA ⟨[1, 1, 2], .float32, [1, 0]⟩ 2) →
        stackE 2 (p.map (fun i =>
          (slabList 2 ⟨[1, 1, 2], .float32, [1, 0]⟩).getD i dArr)) = .ok xp →
        klopsE xp 2 = stackE 2 (p.map (fun i => Z.getD i dArr))) :=
  claim_C8 ⟨[1, 1, 2], .float32, [1, 0]⟩ 2 (by decide) (by decide) (by decide)

/-- Per-axis offsets of a structuring element axis of size `s`, centred at
`s / 2` (the embedding of scipy's origin convention). -/
def axisOffsets (s : ℕ) : List ℤ := (List.range s).map (fun j => (j : ℤ) - (s / 2 : ℕ))

/-- All offsets covered by an all-ones structuring element of the given
shape (`np.ones(structure)`), as the cartesian product of the per-axis
offsets. -/
def structOffsets : List ℕ → List (List ℤ)
  | [] => [[]]
  | s :: rest => (axisOffsets s).flatMap
      (fun o => (structOffsets rest).map (fun os => o :: os))

/-- Shift a multi-index by an offset vector, staying inside the shape. -/
def shiftIdx : List ℕ → List ℕ → List ℤ → Option (List ℕ)
  | [], [], [] => some []
  | n :: ns, i :: is, o :: os =>
    let v : ℤ := (i : ℤ) + o
    if 0 ≤ v ∧ v < n then (shiftIdx ns is os).map (fun rest => v.toNat :: rest)
    else none
  | _, _, _ => none

/-- Neighbours of a flat index under the all-ones structuring element. -/
def structNeighbors (shape structElem : List ℕ) (p : ℕ) : List ℕ :=
  let idx := unflat shape p
  (structOffsets structElem).filterMap
    (fun off => (shiftIdx shape idx off).map (flatIdx shape))

/-- Does a multi-index lie on the array border? -/
def isBorder (shape idx : List ℕ) : Bool :=
  (shape.zip idx).any (fun q => q.2 == 0 || q.2 + 1 == q.1)

/-- The embedding of `scipy.ndimage.binary_fill_holes` with an all-ones
structuring element: background voxels not connected to the border
through background (under the element's connectivity) are filled. -/
def binaryFillHoles (x : NpArr) (structElem : List ℕ) : NpArr :=
  let N := x.shape.prod
  let bg := fun p => x.data.getD p 0 == 0
  let adj := structNeighbors x.shape structElem
  let fuel := (N + 1) * (structElem.prod + 3)
  let seeds := (List.range N).filter
    (fun p => bg p && isBorder x.shape (unflat x.shape p))
  let reach := floodFill adj bg fuel seeds (List.replicate N false)
  ⟨x.shape, .boolT,
    genList N (fun p => if bg p && reach.getD p false then 0 else 1)⟩

/-- The embedding of `astype(np.int)` on a whole array. -/
def astypeInt (x : NpArr) : NpArr := ⟨x.shape, .int64, x.data.map ratTruncZ⟩

/-- `fill_holes(predictions, structure)` from
`ivadomed/postprocessing.py`: binarize non-binary input at 1e-3, assert
the structuring element has one entry per array dimension, apply
morphological hole filling with an all-ones element and cast to int, and
re-apply the original soft values through `mask_predictions` for
non-binary input. -/
def fillHolesE (predictions : NpArr) (structElem : List ℕ) :
    Except PErr NpArr :=
  let proc1 := if isBinaryArr predictions then predictions
    else thresholdPredictions predictions (1/1000)
  if structElem.length ≠ predictions.shape.length then .error .assertionError
  else
    let proc2 := astypeInt (binaryFillHoles proc1 structElem)
    if isBinaryArr predictions then .ok proc2
    else maskPredictionsE predictions proc2

/-- A spatially-tagged volumetric container (`nibabel.Nifti1Image`):
a data array plus an affine spatial transform. -/
structure Nifti where
  dataobj : NpArr
  affine : List (List ℚ)
  deriving DecidableEq, Repr

/-- The `nifti_capable` decorator applied to `threshold_predictions`:
on a container, apply the raw transform to a copy of the data array and
rewrap with the container's original affine. -/
def thresholdN (d : NpArr ⊕ Nifti) (thr : ℚ) : NpArr ⊕ Nifti :=
  match d with
  | .inl arr => .inl (thresholdPredictions arr thr)
  | .inr n => .inr ⟨thresholdPredictions n.dataobj thr, n.affine⟩

/-- The `nifti_capable` decorator applied to `keep_largest_object`. -/
def kloN (d : NpArr ⊕ Nifti) : Except PErr (NpArr ⊕ Nifti) :=
  match d with
  | .inl arr => (kloE arr).map .inl
  | .inr n => (kloE n.dataobj).map (fun y => .inr ⟨y, n.affine⟩)

/-- The `nifti_capable` decorator applied to
`keep_largest_object_per_slice`. -/
def klopsN (d : NpArr ⊕ Nifti) (axis : ℕ) : Except PErr (NpArr ⊕ Nifti) :=
  match d with
  | .inl arr => (klopsE arr axis).map .inl
  | .inr n => (klopsE n.dataobj axis).map (fun y => .inr ⟨y, n.affine⟩)

/-- The `nifti_capable` decorator applied to `fill_holes`. -/
def fillHolesN (d : NpArr ⊕ Nifti) (structElem : List ℕ) :
    Except PErr (NpArr ⊕ Nifti) :=
  match d with
  | .inl arr => (fillHolesE arr structElem).map .inl
  | .inr n => (fillHolesE n.dataobj structElem).map (fun y => .inr ⟨y, n.affine⟩)

/-- The `nifti_capable` decorator applied to `mask_predictions` (the
decorator inspects only the first argument). -/
def maskN (d : NpArr ⊕ Nifti) (maskBinary : NpArr) :
    Except PErr (NpArr ⊕ Nifti) :=
  match d with
  | .inl arr => (maskPredictionsE arr maskBinary).map .inl
  | .inr n => (maskPredictionsE n.dataobj maskBinary).map
      (fun y => .inr ⟨y, n.affine⟩)

/-- Claim C9 — lifting contract of the post-processing transforms: applied
to a spatially-tagged container, each transform returns a container whose
affine equals the input's affine and whose data array is the raw-array
transform applied to the input's data array (errors of the raw transform
propagate unchanged). -/
theorem claim_C9 (n : Nifti) (thr : ℚ) (axis : ℕ) (structElem : List ℕ)
    (mb : NpArr) :
    thresholdN (.inr n) thr =
        .inr ⟨thresholdPredictions n.dataobj thr, n.affine⟩ ∧
    kloN (.inr n) = (kloE n.dataobj).map (fun y => .inr ⟨y, n.affine⟩) ∧
    klopsN (.inr n) axis =
        (klopsE n.dataobj axis).map (fun y => .inr ⟨y, n.affine⟩) ∧
    fillHolesN (.inr n) structElem =
        (fillHolesE n.dataobj structElem).map (fun y => .inr ⟨y, n.affine⟩) ∧
    maskN (.inr n) mb =
        (maskPredictionsE n.dataobj mb).map (fun y => .inr ⟨y, n.affine⟩) :=
  ⟨rfl, rfl, rfl, rfl, rfl⟩

/-- A `PixelSize` metadata value: a JSON scalar float or a list. -/
inductive PSpec where
  | scalar (s : ℚ)
  | list (l : List ℚ)
  deriving DecidableEq, Repr

/-- One entry of the `gt_filenames` argument: absent class, single-rater
filename, or per-rater filename list. -/
inductive GtNameE where
  | absent
  | single (s : String)
  | multi (l : List String)
  deriving DecidableEq, Repr

/-- The `gt_filenames` structure: one entry per class. -/
abbrev GtNames := List GtNameE

/-- `np.eye(4)`: the identity affine given to converted planar images. -/
def eye4 : List (List ℚ) :=
  [[1, 0, 0, 0], [0, 1, 0, 0], [0, 0, 1, 0], [0, 0, 0, 1]]

/-- A decoded volumetric container (`nibabel.Nifti1Image`): header shape,
header zooms, affine and flat row-major data. -/
structure Vol where
  shape : List ℕ
  zooms : List ℚ
  affine : List (List ℚ)
  data : List ℚ
  deriving DecidableEq, Repr

/-- A per-channel metadata mapping as supplied to the constructor; only
the keys the source reads are modelled, a `none` field being an absent
key. -/
structure Meta where
  pixelSize : Option PSpec
  bounding_box : Option (List ℚ)
  input_filenames : Option String
  gt_filenames : Option GtNames
  slice_index : Option ℕ
  coord : Option (List ℕ)
  deriving DecidableEq, Repr

/-- A ground-truth class entry of the Pair: absent, one rater's volume,
or several raters' volumes, each with its filename. -/
inductive GtH where
  | absent
  | one (name : String) (v : Vol)
  | raters (l : List (String × Vol))
  deriving DecidableEq, Repr

/-- Modelled from the spec: `orient_shapes_hwd` of the loader utilities
(`ivadomed.loader.utils`, which is not among the sources under
verification) permutes a 3-tuple so that the configured slice axis
becomes the last (depth) axis, giving the (height, width, depth)
convention: axis 0 maps (s0,s1,s2) to (s2,s1,s0), axis 1 to (s2,s0,s1),
and axis 2 is the identity. -/
def orientHwd {α : Type} (l : List α) (axis : ℕ) : List α :=
  match l with
  | [s0, s1, s2] =>
    match axis with
    | 0 => [s2, s1, s0]
    | 1 => [s2, s0, s1]
    | _ => [s0, s1, s2]
  | _ => l

/-- Modelled from the spec: `orient_img_hwd` applies the same axis
permutation as `orient_shapes_hwd` to the full data array
(`transpose(2,1,0)` for axis 0, `transpose(2,0,1)` for axis 1, the
identity for axis 2). -/
def orientImgHwd (d : NpArr) (axis : ℕ) : NpArr :=
  match d.shape with
  | [n0, n1, n2] =>
    match axis with
    | 0 => ⟨[n2, n1, n0], d.dtype, genList (n2 * (n1 * n0)) (fun t =>
        d.data.getD ((t % (n1 * n0) % n0) * (n1 * n2) +
          (t % (n1 * n0) / n0) * n2 + t / (n1 * n0)) 0)⟩
    | 1 => ⟨[n2, n0, n1], d.dtype, genList (n2 * (n0 * n1)) (fun t =>
        d.data.getD ((t % (n0 * n1) / n1) * (n1 * n2) +
          (t % (n0 * n1) % n1) * n2 + t / (n0 * n1)) 0)⟩
    | _ => d
  | _ => d

/-- `handle.get_fdata(cache_mode, dtype=np.float32)`: the decoded data as
a float32 array (caching changes performance only, not the value). -/
def volFData (v : Vol) : NpArr := ⟨v.shape, .float32, v.data⟩

/-- The state of a constructed `SegmentationPair`. -/
structure Pair where
  inputs : List (String × Vol)
  gts : List GtH
  slice_axis : ℕ
  metadata : Option (List Meta)
  cache : Bool
  soft_gt : Bool
  deriving DecidableEq, Repr

/-- One step of the input-shape loop of `get_pair_shapes`: append the
oriented shape, then test `if not len(set(input_shape))` — emptiness of
the accumulated list, which can never hold after an append. -/
def inShapeStep (axis : ℕ) (acc : List (List ℕ)) (v : Vol) :
    Except PErr (List (List ℕ)) :=
  let acc2 := acc ++ [orientHwd v.shape axis]
  if acc2.isEmpty then
    Except.error (.runtimeError "Inputs have different dimensions.")
  else pure acc2

/-- One step of the ground-truth-shape loop of `get_pair_shapes`: skip
absent classes, append the oriented shape of each rater volume, then test
`if not len(set(gt_shape))` — emptiness of the accumulated list. -/
def gtShapeStep (axis : ℕ) (acc : List (List ℕ)) (g : GtH) :
    Except PErr (List (List ℕ)) :=
  match g with
  | .absent => pure acc
  | .one _ v =>
    let acc2 := acc ++ [orientHwd v.shape axis]
    if acc2.isEmpty then
      Except.error (.runtimeError "Labels have different dimensions.")
    else pure acc2
  | .raters l =>
    let acc2 := acc ++ l.map (fun r => orientHwd r.2.shape axis)
    if acc2.isEmpty then
      Except.error (.runtimeError "Labels have different dimensions.")
    else pure acc2

/-- `SegmentationPair.get_pair_shapes`: accumulate oriented input and
ground-truth shapes with the emptiness tests above, then return
`(input_shape[0], gt_shape[0] if len(gt_shape) else None)`. -/
def getPairShapes (inputs : List Vol) (gts : List GtH) (axis : ℕ) :
    Except PErr (List ℕ × Option (List ℕ)) :=
  match inputs.foldlM (inShapeStep axis) [] with
  | .error e => .error e
  | .ok inShapes =>
    match gts.foldlM (gtShapeStep axis) [] with
    | .error e => .error e
    | .ok gtShapes =>
      match pyGet0 inShapes with
      | .error e => .error e
      | .ok s0 => .ok (s0, gtShapes.head?)

/-- The per-input dimensionality check of the constructor's read loop. -/
def dimChk (p : String × Vol) : Except PErr Unit :=
  if p.2.shape.length > 3 then
    Except.error (.runtimeError "4-dimensional volumes not supported.")
  else pure ()

/-- The constructor's read loop over the input files (only the
dimensionality check is value-relevant). -/
def dimLoop : List (String × Vol) → Except PErr Unit
  | [] => pure ()
  | p :: rest =>
    match dimChk p with
    | .error e => .error e
    | .ok _ => dimLoop rest

/-- The per-component closeness test of `np.allclose` (rtol 1e-5,
atol 1e-8) on natural numbers, scaled by 1e8 to stay in integers:
`|a - b| <= 1e-8 + 1e-5 * |b|`. -/
def closePairN (a b : ℕ) : Bool :=
  decide (100000000 * ((a - b) + (b - a)) ≤ 1 + 1000 * b)

/-- The embedding of `np.allclose` on equal-length shape tuples. -/
def allcloseN (a b : List ℕ) : Bool :=
  a.length == b.length && (a.zip b).all (fun q => closePairN q.1 q.2)

/-- The `gt_filenames` name structure the constructor records into each
metadata entry. -/
def gtNamesOf (gtsRaw : Option (List GtH)) : GtNames :=
  (gtsRaw.getD []).map (fun g =>
    match g with
    | .absent => .absent
    | .one n _ => .single n
    | .raters l => .multi (l.map Prod.fst))

/-- `SegmentationPair.__init__` from the point after file decoding:
takes the decoded input volumes (with their filenames), the ground-truth
structure (`none` when `gt_filenames` is `None`), the optional
per-channel metadata and the slice axis.  `read_file` is file I/O and is
modelled by taking the decoded volumes as arguments;
`nib.as_closest_canonical` is external nibabel behaviour, modelled as the
identity on the decoded container. -/
def segPairInit (inputs : List (String × Vol)) (gtsRaw : Option (List GtH))
    (md : Option (List Meta)) (axis : ℕ) (cache soft : Bool) :
    Except PErr Pair :=
  match dimLoop inputs with
  | .error e => .error e
  | .ok _ =>
    let gts := gtsRaw.getD []
    match getPairShapes (inputs.map Prod.snd) gts axis with
    | .error e => .error e
    | .ok shp =>
      match (match gtsRaw with
        | none => Except.ok ()
        | some gl =>
          match pyGet0 gl with
          | .error e => .error e
          | .ok GtH.absent => .ok ()
          | .ok _ =>
            match shp.2 with
            | some gs =>
              if allcloseN shp.1 gs then .ok ()
              else .error (.runtimeError
                "Input and ground truth with different dimensions.")
            | none => .error .typeError) with
      | .error e => .error e
      | .ok _ =>
        let md2 := match md with
          | some (m :: ms) => some (((m :: ms).zip inputs).map (fun q =>
              { q.1 with input_filenames := some q.2.1,
                         gt_filenames := some (gtNamesOf gtsRaw) }))
          | other => other
        .ok ⟨inputs, gts, axis, md2, cache, soft⟩

/-- Claim C1 — the shape-consistency checks of `get_pair_shapes` are
vacuous: the source tests `if not len(set(input_shape))` right after
appending to the list, which is never true, so two inputs (or two
ground-truth volumes) of different oriented shapes pass without raising
and the first shape is returned. -/
theorem claim_C1 :
    getPairShapes [⟨[1, 1, 1], [1, 1, 1], eye4, [0]⟩,
        ⟨[2, 2, 2], [1, 1, 1], eye4, [0]⟩] [] 2 = .ok ([1, 1, 1], none) ∧
    getPairShapes [⟨[1, 1, 1], [1, 1, 1], eye4, [0]⟩]
        [GtH.one "ga" ⟨[1, 1, 1], [1, 1, 1], eye4, [0]⟩,
         GtH.one "gb" ⟨[2, 2, 2], [1, 1, 1], eye4, [0]⟩] 2 =
      .ok ([1, 1, 1], some [1, 1, 1]) := by
  constructor <;> rfl

theorem dimLoop_ok :
    ∀ (l : List (String × Vol)), (∀ p ∈ l, p.2.shape.length ≤ 3) →
      dimLoop l = pure () := by
  intro l
  induction l with
  | nil => intro _; rfl
  | cons a t ih =>
    intro hl
    have hstep : dimChk a = pure () := by
      unfold dimChk
      rw [if_neg (by have := hl a (List.mem_cons_self a t); omega)]
    unfold dimLoop
    rw [hstep]
    exact ih (fun v hv => hl v (List.mem_cons_of_mem a hv))

theorem inShapeFold_ok (axis : ℕ) :
    ∀ (vs : List Vol) (acc : List (List ℕ)),
      vs.foldlM (inShapeStep axis) acc =
        .ok (acc ++ vs.map (fun v => orientHwd v.shape axis)) := by
  intro vs
  induction vs with
  | nil => intro acc; simp [List.foldlM_nil]; rfl
  | cons v vs ih =>
    intro acc
    rw [List.foldlM_cons]
    have hstep : inShapeStep axis acc v =
        pure (acc ++ [orientHwd v.shape axis]) := by
      unfold inShapeStep
      rw [if_neg (by simp)]
    rw [hstep]
    show vs.foldlM (inShapeStep axis) (acc ++ [orientHwd v.shape axis]) = _
    rw [ih]
    simp

theorem gtFold_ok (axis : ℕ) :
    ∀ (gl : List GtH) (acc : List (List ℕ)), acc ≠ [] →
      ∃ res, gl.foldlM (gtShapeStep axis) acc = .ok res ∧
        res.head? = acc.head? ∧ res ≠ [] := by
  intro gl
  induction gl with
  | nil =>
    intro acc hacc
    exact ⟨acc, by rw [List.foldlM_nil]; rfl, rfl, hacc⟩
  | cons g gl ih =>
    intro acc hacc
    rw [List.foldlM_cons]
    obtain ⟨a0, at0, rfl⟩ : ∃ a0 at0, acc = a0 :: at0 := by
      cases acc with
      | nil => exact absurd rfl hacc
      | cons a0 at0 => exact ⟨a0, at0, rfl⟩
    cases g with
    | absent =>
      obtain ⟨res, h1, h2, h3⟩ := ih (a0 :: at0) hacc
      refine ⟨res, ?_, h2, h3⟩
      rw [show gtShapeStep axis (a0 :: at0) GtH.absent =
        pure (a0 :: at0) from rfl]
      exact h1
    | one nm v =>
      have hstep : gtShapeStep axis (a0 :: at0) (GtH.one nm v) =
          pure ((a0 :: at0) ++ [orientHwd v.shape axis]) := rfl
      obtain ⟨res, h1, h2, h3⟩ := ih ((a0 :: at0) ++ [orientHwd v.shape axis])
        (by simp)
      refine ⟨res, ?_, ?_, h3⟩
      · rw [hstep]
        exact h1
      · rw [h2]
        rfl
    | raters l =>
      have hstep : gtShapeStep axis (a0 :: at0) (GtH.raters l) =
          pure ((a0 :: at0) ++ l.map (fun r => orientHwd r.2.shape axis)) := rfl
      obtain ⟨res, h1, h2, h3⟩ :=
        ih ((a0 :: at0) ++ l.map (fun r => orientHwd r.2.shape axis)) (by simp)
      refine ⟨res, ?_, ?_, h3⟩
      · rw [hstep]
        exact h1
      · rw [h2]
        rfl

/-- The first ground-truth volume when the first class entry is present
(`gt_filenames[0] is not None` with at least one volume). -/
def gtFirstVol (gts : List GtH) : Option Vol :=
  match gts.head? with
  | some (.one _ v) => some v
  | some (.raters ((_, v) :: _)) => some v
  | _ => none

theorem gtFold_first (axis : ℕ) (gts : List GtH) (g : Vol)
    (hg : gtFirstVol gts = some g) :
    ∃ res, gts.foldlM (gtShapeStep axis) [] = .ok res ∧
      res.head? = some (orientHwd g.shape axis) := by
  cases gts with
  | nil => simp [gtFirstVol] at hg
  | cons g0 gl =>
    cases g0 with
    | absent => simp [gtFirstVol] at hg
    | one nm v =>
      have hgv : v = g := by simpa [gtFirstVol] using hg
      subst hgv
      rw [List.foldlM_cons]
      have hstep : gtShapeStep axis [] (GtH.one nm v) =
          pure [orientHwd v.shape axis] := rfl
      rw [hstep]
      obtain ⟨res, h1, h2, _⟩ := gtFold_ok axis gl [orientHwd v.shape axis]
        (by simp)
      refine ⟨res, ?_, ?_⟩
      · show gl.foldlM (gtShapeStep axis) [orientHwd v.shape axis] = _
        exact h1
      · rw [h2]
        rfl
    | raters rl =>
      cases rl with
      | nil => simp [gtFirstVol] at hg
      | cons r rt =>
        obtain ⟨rn, rv⟩ := r
        have hgv : rv = g := by simpa [gtFirstVol] using hg
        subst hgv
        rw [List.foldlM_cons]
        have hstep : gtShapeStep axis [] (GtH.raters ((rn, rv) :: rt)) =
            pure (orientHwd rv.shape axis ::
              rt.map (fun r => orientHwd r.2.shape axis)) := rfl
        rw [hstep]
        obtain ⟨res, h1, h2, _⟩ := gtFold_ok axis gl
          (orientHwd rv.shape axis ::
            rt.map (fun r => orientHwd r.2.shape axis)) (by simp)
        refine ⟨res, ?_, ?_⟩
        · show gl.foldlM (gtShapeStep axis)
            (orientHwd rv.shape axis ::
              rt.map (fun r => orientHwd r.2.shape axis)) = _
          exact h1
        · rw [h2]
          rfl

theorem getPairShapes_eval (axis : ℕ) (v : Vol) (vs : List Vol)
    (gts : List GtH) (g : Vol) (hg : gtFirstVol gts = some g) :
    getPairShapes (v :: vs) gts axis =
      .ok (orientHwd v.shape axis, some (orientHwd g.shape axis)) := by
  obtain ⟨res, h1, h2⟩ := gtFold_first axis gts g hg
  unfold getPairShapes
  rw [inShapeFold_ok axis (v :: vs) [], h1]
  show (match pyGet0 ([] ++ (v :: vs).map (fun v => orientHwd v.shape axis)) with
    | .error e => (.error e : Except PErr (List ℕ × Option (List ℕ)))
    | .ok s0 => .ok (s0, res.head?)) = _
  rw [show pyGet0 ([] ++ (v :: vs).map (fun v => orientHwd v.shape axis)) =
    .ok (orientHwd v.shape axis) from rfl]
  rw [h2]

/-- Does an `Except` value hold a successful result? -/
def isOkE {α : Type} (e : Except PErr α) : Bool :=
  match e with
  | .ok _ => true
  | .error _ => false

/-- Is an `Except` value the `ShapeMismatch` error
('Input and ground truth with different dimensions.')? -/
def isShapeMismatchE {α : Type} (e : Except PErr α) : Bool :=
  match e with
  | .error (.runtimeError m) =>
      m == "Input and ground truth with different dimensions."
  | _ => false

/-- Claim C2 — counterexample: a Pair whose FIRST ground-truth entry is
absent but whose second entry is present with a shape different from the
input's is constructed successfully; no ShapeMismatch is raised, because
the source only checks `gt_filenames[0] is not None`. -/
theorem claim_C2_counterexample :
    isShapeMismatchE (segPairInit [("i", ⟨[1, 1, 1], [1, 1, 1], eye4, [0]⟩)]
        (some [GtH.absent, GtH.one "g" ⟨[5, 5, 5], [1, 1, 1], eye4, [0]⟩])
        none 2 true false) = false ∧
    isOkE (segPairInit [("i", ⟨[1, 1, 1], [1, 1, 1], eye4, [0]⟩)]
        (some [GtH.absent, GtH.one "g" ⟨[5, 5, 5], [1, 1, 1], eye4, [0]⟩])
        none 2 true false) = true ∧
    orientHwd ([1, 1, 1] : List ℕ) 2 ≠ orientHwd [5, 5, 5] 2 := by
  refine ⟨rfl, rfl, by decide⟩

/-- Claim C2 (amended) — when the FIRST ground-truth entry is present
(with at least one volume), construction fails with ShapeMismatch exactly
when the first input's oriented shape is not `np.allclose`-equal to the
first ground-truth volume's oriented shape; when the shapes are
allclose-equal, construction succeeds. -/
theorem claim_C2 (nm : String) (v : Vol) (rest : List (String × Vol))
    (hdim : ∀ p ∈ ((nm, v) :: rest), p.2.shape.length ≤ 3)
    (gts : List GtH) (g : Vol) (hg : gtFirstVol gts = some g)
    (md : Option (List Meta)) (axis : ℕ) (cache soft : Bool) :
    (allcloseN (orientHwd v.shape axis) (orientHwd g.shape axis) = false →
      segPairInit ((nm, v) :: rest) (some gts) md axis cache soft =
        .error (.runtimeError
          "Input and ground truth with different dimensions.")) ∧
    (allcloseN (orientHwd v.shape axis) (orientHwd g.shape axis) = true →
      isOkE (segPairInit ((nm, v) :: rest) (some gts) md axis cache soft) =
        true) := by
  have h1 : dimLoop ((nm, v) :: rest) = .ok () := dimLoop_ok _ hdim
  have h2 := getPairShapes_eval axis v (rest.map Prod.snd) gts g hg
  obtain ⟨g0, gtl, rfl⟩ : ∃ g0 gtl, gts = g0 :: gtl := by
    cases gts with
    | nil => simp [gtFirstVol] at hg
    | cons g0 gtl => exact ⟨g0, gtl, rfl⟩
  constructor
  · intro hcl
    cases g0 with
    | absent => simp [gtFirstVol] at hg
    | one nm0 v0 =>
      have hpy : pyGet0 (GtH.one nm0 v0 :: gtl) = .ok (GtH.one nm0 v0) := rfl
      simp [segPairInit, h1, h2, hpy, hcl]
    | raters rl =>
      cases rl with
      | nil => simp [gtFirstVol] at hg
      | cons r rt =>
        have hpy : pyGet0 (GtH.raters (r :: rt) :: gtl) =
            .ok (GtH.raters (r :: rt)) := rfl
        simp [segPairInit, h1, h2, hpy, hcl]
  · intro hcl
    cases g0 with
    | absent => simp [gtFirstVol] at hg
    | one nm0 v0 =>
      have hpy : pyGet0 (GtH.one nm0 v0 :: gtl) = .ok (GtH.one nm0 v0) := rfl
      simp [segPairInit, h1, h2, hpy, hcl, isOkE]
    | raters rl =>
      cases rl with
      | nil => simp [gtFirstVol] at hg
      | cons r rt =>
        have hpy : pyGet0 (GtH.raters (r :: rt) :: gtl) =
            .ok (GtH.raters (r :: rt)) := rfl
        simp [segPairInit, h1, h2, hpy, hcl, isOkE]

/-- Claim C2 — witness: a Pair whose single (first) ground-truth entry is
present with oriented shape (5,5,5) against input shape (1,1,1) raises
ShapeMismatch. -/
theorem claim_C2_witness :
    segPairInit [("i", ⟨[1, 1, 1], [1, 1, 1], eye4, [0]⟩)]
        (some [GtH.one "g" ⟨[5, 5, 5], [1, 1, 1], eye4, [0]⟩])
        none 2 true false =
      .error (.runtimeError
        "Input and ground truth with different dimensions.") := by
  have hd : ∀ p ∈ [("i", (⟨[1, 1, 1], [1, 1, 1], eye4, [0]⟩ : Vol))],
      p.2.shape.length ≤ 3 := by decide
  have hcl : allcloseN
      (orientHwd (⟨[1, 1, 1], [1, 1, 1], eye4, [0]⟩ : Vol).shape 2)
      (orientHwd (⟨[5, 5, 5], [1, 1, 1], eye4, [0]⟩ : Vol).shape 2) = false := by
    decide
  have h := claim_C2 "i" ⟨[1, 1, 1], [1, 1, 1], eye4, [0]⟩ [] hd
    [GtH.one "g" ⟨[5, 5, 5], [1, 1, 1], eye4, [0]⟩]
    ⟨[5, 5, 5], [1, 1, 1], eye4, [0]⟩ rfl none 2 true false
  exact h.1 hcl

/-- One returned ground-truth entry of `get_pair_data`: an array, or a
per-rater list of arrays. -/
inductive GtData where
  | arr (a : NpArr)
  | multi (l : List NpArr)
  deriving DecidableEq, Repr

/-- The embedding of `astype(np.uint8)`: truncate and wrap modulo 256. -/
def astypeUInt8 (x : NpArr) : NpArr :=
  ⟨x.shape, .uint8, x.data.map (fun v => (((ratTruncZ v).num % 256 : ℤ) : ℚ))⟩

/-- One iteration of the ground-truth loop of `get_pair_data`: orient the
decoded float32 data of each present volume; for an absent class, return
`np.zeros(orient_shapes_hwd(input_handle[0].shape), np.float32)` cast to
`np.uint8`. -/
def gtDataStep (inputs : List (String × Vol)) (axis : ℕ) (g : GtH) :
    Except PErr GtData :=
  match g with
  | .one _ v => pure (.arr (orientImgHwd (volFData v) axis))
  | .raters l =>
      pure (.multi (l.map (fun r => orientImgHwd (volFData r.2) axis)))
  | .absent =>
    match pyGet0 inputs with
    | .error e => .error e
    | .ok h0 => pure (.arr (astypeUInt8
        ⟨orientHwd h0.2.shape axis, .float32,
          List.replicate (orientHwd h0.2.shape axis).prod 0⟩))

/-- `SegmentationPair.get_pair_data`: oriented float32 input arrays and
per-class ground-truth arrays (the `if self.gt_handle is None` branch of
the source is dead code: `gt_handle` is initialised to a list). -/
def getPairData (pr : Pair) : Except PErr (List NpArr × List GtData) :=
  match pr.gts.mapM (gtDataStep pr.inputs pr.slice_axis) with
  | .error e => .error e
  | .ok gtData =>
    .ok (pr.inputs.map (fun p => orientImgHwd (volFData p.2) pr.slice_axis),
      gtData)

/-- Claim C7 — an absent ground-truth class yields, from `get_pair_data`,
an all-zero uint8 array with the oriented shape of the first input
channel; in particular a Pair with one input, one two-rater class and one
absent class returns `[[rater1, rater2], zeros]`. -/
theorem claim_C7 :
    (∀ (nm : String) (v : Vol) (rest : List (String × Vol)) (gts : List GtH)
      (axis : ℕ) (md : Option (List Meta)) (cache soft : Bool) (i : ℕ),
      gts.get? i = some GtH.absent →
      ∃ gds, getPairData ⟨(nm, v) :: rest, gts, axis, md, cache, soft⟩ =
          .ok (((nm, v) :: rest).map
            (fun p => orientImgHwd (volFData p.2) axis), gds) ∧
        i < gds.length ∧
        gds.getD i (GtData.arr dArr) = GtData.arr (astypeUInt8
          ⟨orientHwd v.shape axis, .float32,
            List.replicate (orientHwd v.shape axis).prod 0⟩)) ∧
    (∀ (nm n1 n2 : String) (v g1 g2 : Vol) (axis : ℕ)
      (md : Option (List Meta)) (cache soft : Bool),
      getPairData ⟨[(nm, v)],
          [GtH.raters [(n1, g1), (n2, g2)], GtH.absent], axis, md,
          cache, soft⟩ =
        .ok ([orientImgHwd (volFData v) axis],
          [GtData.multi [orientImgHwd (volFData g1) axis,
            orientImgHwd (volFData g2) axis],
           GtData.arr (astypeUInt8 ⟨orientHwd v.shape axis, .float32,
             List.replicate (orientHwd v.shape axis).prod 0⟩)])) := by
  constructor
  · intro nm v rest gts axis md cache soft i hgt
    have hstep : ∀ g ∈ gts, ∃ b,
        gtDataStep ((nm, v) :: rest) axis g = .ok b := by
      intro g _
      cases g with
      | absent => exact ⟨_, rfl⟩
      | one n0 v0 => exact ⟨_, rfl⟩
      | raters l => exact ⟨_, rfl⟩
    obtain ⟨gds, hgds⟩ :=
      exMapM_ok_exists (gtDataStep ((nm, v) :: rest) axis) gts hstep
    have hlen : gds.length = gts.length :=
      exMapM_ok_length (gtDataStep ((nm, v) :: rest) axis) gts gds hgds
    have hi : i < gts.length := by
      obtain ⟨hlt, _⟩ := List.get?_eq_some.mp hgt
      exact hlt
    have hgetD : gts.getD i GtH.absent = GtH.absent := by
      unfold List.getD
      rw [hgt]
      rfl
    have helem := exMapM_ok_getD (gtDataStep ((nm, v) :: rest) axis) gts gds
      hgds i GtH.absent (GtData.arr dArr) hi
    rw [hgetD] at helem
    refine ⟨gds, ?_, by omega, ?_⟩
    · unfold getPairData
      rw [hgds]
    · have : gtDataStep ((nm, v) :: rest) axis GtH.absent =
          .ok (GtData.arr (astypeUInt8 ⟨orientHwd v.shape axis, .float32,
            List.replicate (orientHwd v.shape axis).prod 0⟩)) := rfl
      rw [this] at helem
      exact (Except.ok.inj helem).symm
  · intro nm n1 n2 v g1 g2 axis md cache soft
    rfl

/-- Claim C7 — witness: a Pair with one (1,1,1)-shaped input and a single
absent ground-truth class returns the all-zero uint8 array shaped like
the input. -/
theorem claim_C7_witness :
    ∃ gds, getPairData ⟨[("i", ⟨[1, 1, 1], [1, 1, 1], eye4, [0]⟩)],
        [GtH.absent], 2, none, true, false⟩ =
      Except.ok
        ([orientImgHwd (volFData ⟨[1, 1, 1], [1, 1, 1], eye4, [0]⟩) 2],
        gds) ∧
      0 < gds.length ∧
      gds.getD 0 (GtData.arr dArr) = GtData.arr (astypeUInt8
        ⟨orientHwd ([1, 1, 1] : List ℕ) 2, .float32,
          List.replicate (orientHwd ([1, 1, 1] : List ℕ) 2).prod 0⟩) := by
  have h := claim_C7.1 "i" ⟨[1, 1, 1], [1, 1, 1], eye4, [0]⟩ []
    [GtH.absent] 2 none true false 0 rfl
  exact h

/-- The embedding of `np.resize(l, n)`: cycle the entries of `l` to
length `n`. -/
def npResize (l : List ℚ) (n : ℕ) : List ℚ :=
  (List.range n).map (fun i => l.getD (i % l.length) 0)

/-- `SegmentationPair.convert_file_to_nifti` from
`ivadomed/loader/segmentation_pair.py`, from the point after the imageio
decode (file I/O, modelled by taking the decoded gray-scale 2D array as
the argument): expand to a trailing unit axis, wrap with the identity
affine, read `PixelSize` from the first channel's metadata as a float
scalar or a 2/3-element list in micrometers, resize to 3 components,
replace a zero third component by the first, convert to millimeters with
factor 0.001, and set as the container's zooms.  Saving the converted
file next to the source is a file side effect that is not modelled. -/
def convertFileToNifti (img0 : NpArr) (md0 : Meta) : Except PErr Vol :=
  let imgShape := img0.shape ++ [1]
  match md0.pixelSize with
  | none => .error (.runtimeError "'PixelSize' is missing from metadata")
  | some ps =>
    match ((match ps with
      | .list l =>
        if l.length = 2 ∨ l.length = 3 then Except.ok l
        else Except.error (PErr.runtimeError
          ("'PixelSize' metadata type is not supported. Format must be " ++
           "2D [X, Y] array, 3D [X, Y, Z] array or float."))
      | .scalar s => Except.ok [s, s]) : Except PErr (List ℚ)) with
    | .error e => .error e
    | .ok psArr =>
      let ps3 := npResize psArr 3
      let ps4 := if ps3.getD 2 0 = 0 then ps3.set 2 (ps3.getD 0 0) else ps3
      let psMm := ps4.map (fun v => v * (1/1000))
      .ok ⟨imgShape, psMm, eye4, img0.data⟩

/-- Claim C6 — planar-format conversion with a scalar `PixelSize` `s`
(micrometers) succeeds with zooms `(s/1000, s/1000, s/1000)` millimeters
and a trailing unit axis; a 2-element `[a, b]` yields
`(a/1000, b/1000, a/1000)` (the cycled third component equals the first);
a 3-element `[a, b, c]` yields `(a/1000, b/1000, (if c = 0 then a else
c)/1000)`. -/
theorem claim_C6 (img0 : NpArr) (md0 : Meta) (s a b c : ℚ) :
    (md0.pixelSize = some (.scalar s) →
      convertFileToNifti img0 md0 =
        .ok ⟨img0.shape ++ [1], [s / 1000, s / 1000, s / 1000], eye4,
          img0.data⟩) ∧
    (md0.pixelSize = some (.list [a, b]) →
      convertFileToNifti img0 md0 =
        .ok ⟨img0.shape ++ [1], [a / 1000, b / 1000, a / 1000], eye4,
          img0.data⟩) ∧
    (md0.pixelSize = some (.list [a, b, c]) →
      convertFileToNifti img0 md0 =
        .ok ⟨img0.shape ++ [1],
          [a / 1000, b / 1000, (if c = 0 then a else c) / 1000], eye4,
          img0.data⟩) := by
  refine ⟨?_, ?_, ?_⟩
  · intro hps
    have hres : npResize [s, s] 3 = [s, s, s] := by
      simp [npResize, List.range_succ]
    rcases eq_or_ne s 0 with hs | hs
    · subst hs
      simp [convertFileToNifti, hps, hres, div_eq_mul_inv]
    · simp [convertFileToNifti, hps, hres, hs, div_eq_mul_inv]
  · intro hps
    have hres : npResize [a, b] 3 = [a, b, a] := by
      simp [npResize, List.range_succ]
    rcases eq_or_ne a 0 with ha | ha
    · subst ha
      simp [convertFileToNifti, hps, hres, div_eq_mul_inv]
    · simp [convertFileToNifti, hps, hres, ha, div_eq_mul_inv]
  · intro hps
    have hres : npResize [a, b, c] 3 = [a, b, c] := by
      simp [npResize, List.range_succ]
    rcases eq_or_ne c 0 with hc | hc
    · subst hc
      simp [convertFileToNifti, hps, hres, div_eq_mul_inv]
    · simp [convertFileToNifti, hps, hres, hc, div_eq_mul_inv]

/-- Claim C6 — witness: a 100x100 image with scalar `PixelSize = 5`
micrometers converts to zooms `(5/1000, 5/1000, 5/1000)` millimeters and
a trailing unit axis. -/
theorem claim_C6_witness :
    convertFileToNifti ⟨[100, 100], .float32, []⟩
        ⟨some (.scalar 5), none, none, none, none, none⟩ =
      Except.ok ⟨[100, 100] ++ [1], [5 / 1000, 5 / 1000, 5 / 1000], eye4,
        []⟩ := by
  have h := claim_C6 ⟨[100, 100], .float32, []⟩
    ⟨some (.scalar 5), none, none, none, none, none⟩ 5 0 0 0
  exact h.1 rfl

/-- A `gt_filenames` value stored in a ground-truth metadata record:
either the whole name structure (single-rater classes) or one rater's
filename (multi-rater classes). -/
inductive GtFnV where
  | whole (g : GtNames)
  | one (s : String)
  deriving DecidableEq, Repr

/-- A `SampleMetadata` record (the loader-utilities dict wrapper is
modelled by a structure holding the keys the source writes; `none` is an
absent key). -/
structure SampleMeta where
  zooms : List ℚ
  data_shape : List ℕ
  data_type : String
  crop_params : List ℕ
  gt_filenames : Option GtFnV
  bounding_box : Option (List ℚ)
  input_filenames : Option String
  slice_index : Option ℕ
  coord : Option (List ℕ)
  pixelSize : Option PSpec
  deriving DecidableEq, Repr

/-- One ground-truth metadata entry: a record or a per-rater list. -/
inductive GtME where
  | single (m : SampleMeta)
  | multi (l : List SampleMeta)
  deriving DecidableEq, Repr

/-- `self.metadata[0]`: `TypeError` when metadata is `None`,
`IndexError` when it is empty. -/
def pyMeta0 (md : Option (List Meta)) : Except PErr Meta :=
  match md with
  | none => .error .typeError
  | some l => pyGet0 l

/-- `metadata[0]["gt_filenames"]`: `KeyError` when the key is absent. -/
def pyKeyGtNames (m : Meta) : Except PErr GtNames :=
  match m.gt_filenames with
  | some g => pure g
  | none => .error .keyError

/-- Python string subscription `s[i]` (a one-character string). -/
def pyStrIdx (s : String) (i : ℕ) : Except PErr String :=
  match s.toList.get? i with
  | some c => .ok (String.mk [c])
  | none => .error .indexError

/-- `metadata[0]["gt_filenames"][idx_class][idx_rater]`. -/
def gtNameIdx (g : GtNames) (cls rater : ℕ) : Except PErr GtFnV :=
  match pyIdx g cls with
  | .error e => .error e
  | .ok (.multi l) =>
    match pyIdx l rater with
    | .error e => .error e
    | .ok s => .ok (GtFnV.one s)
  | .ok (.single s) =>
    match pyStrIdx s rater with
    | .error e => .error e
    | .ok c => .ok (GtFnV.one c)
  | .ok .absent => .error .typeError

/-- The per-rater metadata records of one multi-rater class. -/
def buildRaterMetas (axis : ℕ) (md0 : Meta) (gtf : GtNames) (cls : ℕ) :
    ℕ → List (String × Vol) → Except PErr (List SampleMeta)
  | _, [] => pure []
  | ri, r :: rest =>
    match gtNameIdx gtf cls ri with
    | .error e => .error e
    | .ok fn =>
      match buildRaterMetas axis md0 gtf cls (ri + 1) rest with
      | .error e => .error e
      | .ok ms =>
        pure (⟨orientHwd r.2.zooms axis, orientHwd r.2.shape axis, "gt", [],
          some fn, md0.bounding_box, none, none, none, none⟩ :: ms)

/-- One class entry of the ground-truth metadata list: a record for a
present class (reading `metadata[0]`), `none` (Python `None`) for an
absent one. -/
def buildGtEntry (md : Option (List Meta)) (axis cls : ℕ) (g : GtH) :
    Except PErr (Option GtME) :=
  match g with
  | .absent => pure none
  | .one _ v =>
    match pyMeta0 md with
    | .error e => .error e
    | .ok md0 =>
      match pyKeyGtNames md0 with
      | .error e => .error e
      | .ok gtf =>
        pure (some (GtME.single ⟨orientHwd v.zooms axis,
          orientHwd v.shape axis, "gt", [], some (GtFnV.whole gtf),
          md0.bounding_box, none, none, none, none⟩))
  | .raters l =>
    match pyMeta0 md with
    | .error e => .error e
    | .ok md0 =>
      match pyKeyGtNames md0 with
      | .error e => .error e
      | .ok gtf =>
        match buildRaterMetas axis md0 gtf cls 0 l with
        | .error e => .error e
        | .ok ms => pure (some (GtME.multi ms))

/-- The class loop of `get_pair_metadata`, carrying the class index. -/
def buildGtMeta (md : Option (List Meta)) (axis : ℕ) :
    ℕ → List GtH → Except PErr (List (Option GtME))
  | _, [] => pure []
  | cls, g :: rest =>
    match buildGtEntry md axis cls g with
    | .error e => .error e
    | .ok e =>
      match buildGtMeta md axis (cls + 1) rest with
      | .error e2 => .error e2
      | .ok es => pure (e :: es)

/-- Python truthiness of a ground-truth metadata entry (`filter(None, l)`
drops `None` and empty lists). -/
def pyTruthy (e : Option GtME) : Bool :=
  match e with
  | none => false
  | some (GtME.multi []) => false
  | some _ => true

/-- The back-fill loop of `get_pair_metadata`: for each index holding
`None`, replace it with `list(filter(None, gt_meta_dict))[0]`, mutating
the list as the loop proceeds. -/
def backfillGtMeta (l : List (Option GtME)) :
    Except PErr (List (Option GtME)) :=
  (List.range l.length).foldlM (fun st idx =>
    match st.getD idx none with
    | none =>
      match pyGet0 (st.filter pyTruthy) with
      | .error e => .error e
      | .ok v => pure (st.set idx v)
    | some _ => pure st) l

/-- Unwrap the back-filled entries; after a successful back-fill each
entry is `some` (every `None` slot was overwritten), so the error branch
is unreachable on that path. -/
def unwrapGtMeta (l : List (Option GtME)) : Except PErr (List GtME) :=
  l.mapM (fun e =>
    match e with
    | some m => Except.ok m
    | none => Except.error .indexError)

/-- The input-channel metadata records of `get_pair_metadata`. -/
def buildInputMeta (pr : Pair) : List SampleMeta :=
  pr.inputs.map (fun p =>
    ⟨orientHwd p.2.zooms pr.slice_axis, orientHwd p.2.shape pr.slice_axis,
      "im", [], none, none, none, none, none, none⟩)

/-- The overlay of a supplied channel metadata mapping onto an input
record: every key present in the mapping is copied in (supplied metadata
wins); `slice_index` and `coord` were just written into the mapping so
they are always copied. -/
def overlayMeta (sm : SampleMeta) (m : Meta) : SampleMeta :=
  { sm with
    slice_index := m.slice_index,
    coord := m.coord,
    gt_filenames := match m.gt_filenames with
      | some g => some (GtFnV.whole g)
      | none => sm.gt_filenames,
    bounding_box := match m.bounding_box with
      | some b => some b
      | none => sm.bounding_box,
    input_filenames := match m.input_filenames with
      | some s => some s
      | none => sm.input_filenames,
    pixelSize := match m.pixelSize with
      | some p => some p
      | none => sm.pixelSize }

/-- The channel loop of `get_pair_metadata`: write `slice_index` and
`coord` into each supplied mapping, then overlay all its keys onto
`dreturn["input_metadata"][idx]` (an `IndexError` if the supplied
metadata is longer than the channel list). -/
def overlayLoop (si : ℕ) (coord : Option (List ℕ)) :
    ℕ → List Meta → List SampleMeta → Except PErr (List SampleMeta)
  | _, [], acc => pure acc
  | idx, m :: rest, acc =>
    let m2 := { m with slice_index := some si, coord := coord }
    match pyIdx acc idx with
    | .error e => .error e
    | .ok cur => overlayLoop si coord (idx + 1) rest (acc.set idx (overlayMeta cur m2))

/-- `SegmentationPair.get_pair_metadata`: the (input, ground-truth)
metadata bundle for a slice index and optional subvolume coordinate (the
source also writes the updated mappings back into `self.metadata`; that
state effect does not change the returned bundle). -/
def getPairMetadata (pr : Pair) (si : ℕ) (coord : Option (List ℕ)) :
    Except PErr (List SampleMeta × List GtME) :=
  match buildGtMeta pr.metadata pr.slice_axis 0 pr.gts with
  | .error e => .error e
  | .ok gtMeta0 =>
    match backfillGtMeta gtMeta0 with
    | .error e => .error e
    | .ok gtMeta1 =>
      match unwrapGtMeta gtMeta1 with
      | .error e => .error e
      | .ok gtMeta =>
        match pr.metadata with
        | none => .error .typeError
        | some mds =>
          match overlayLoop si coord 0 mds (buildInputMeta pr) with
          | .error e => .error e
          | .ok inputMeta => .ok (inputMeta, gtMeta)

/-- `np.asarray(a[..., i], dtype=np.float32)`: the last-axis slice at
index `i` as a float32 array (`IndexError` when `i` is out of range or
the array is 0-dimensional). -/
def lastAxisSlice (a : NpArr) (i : ℕ) : Except PErr NpArr :=
  match a.shape.getLast? with
  | none => .error .indexError
  | some d =>
    if i < d then
      .ok ⟨a.shape.dropLast, .float32,
        genList a.shape.dropLast.prod (fun j => a.data.getD (j * d + i) 0)⟩
    else .error .indexError

/-- `int(np.any(a))`: 1 when some entry is nonzero, else 0. -/
def npAnyN (a : NpArr) : ℕ := if a.data.any (fun q => q != 0) then 1 else 0

/-- One returned ground-truth entry of `get_pair_slice`: a segmentation
slice (array, or per-rater list of arrays) or a classification label
(int, or per-rater list of ints). -/
inductive GtSlice where
  | seg (a : NpArr)
  | segMulti (l : List NpArr)
  | cls (n : ℕ)
  | clsMulti (l : List ℕ)
  deriving DecidableEq, Repr

/-- The ground-truth slice of one class entry in `get_pair_slice`:
`gt_obj[..., slice_index]` as float32 for `gt_type == "segmentation"`,
`int(np.any(gt_obj[..., slice_index]))` otherwise, mapped over the
raters of a multi-rater class. -/
def gtSliceOf (si : ℕ) (gt_type : String) (g : GtData) :
    Except PErr GtSlice :=
  match g with
  | .arr a =>
    if gt_type = "segmentation" then
      (lastAxisSlice a si).map GtSlice.seg
    else
      (lastAxisSlice a si).map (fun s => GtSlice.cls (npAnyN s))
  | .multi l =>
    if gt_type = "segmentation" then
      (l.mapM (fun a => lastAxisSlice a si)).map GtSlice.segMulti
    else
      (l.mapM (fun a => (lastAxisSlice a si).map npAnyN)).map
        GtSlice.clsMulti

/-- `SegmentationPair.get_pair_slice`: metadata bundle first
(`get_pair_metadata(slice_index)`, so with `coord=None`), then the pair
data, the slice-axis range check, the per-contrast input slices and the
per-class ground-truth slices (the `if self.gt_handle is None` branch of
the source is dead code: `gt_handle` is initialised to a list). -/
def getPairSlice (pr : Pair) (si : ℕ) (gt_type : String) :
    Except PErr (List NpArr × List GtSlice × List SampleMeta ×
      List GtME) :=
  match getPairMetadata pr si none with
  | .error e => .error e
  | .ok md =>
    match getPairData pr with
    | .error e => .error e
    | .ok (inD, gtD) =>
      if pr.slice_axis = 0 ∨ pr.slice_axis = 1 ∨ pr.slice_axis = 2 then
        match inD.mapM (fun a => lastAxisSlice a si) with
        | .error e => .error e
        | .ok inS =>
          match gtD.mapM (gtSliceOf si gt_type) with
          | .error e => .error e
          | .ok gtS => .ok (inS, gtS, md.1, md.2)
      else .error (.runtimeError "Invalid axis, must be between 0 and 2.")

theorem buildGtMeta_absent (md : Option (List Meta)) (axis : ℕ) :
    ∀ (gts : List GtH) (cls : ℕ), (∀ g ∈ gts, g = GtH.absent) →
    buildGtMeta md axis cls gts = .ok (List.replicate gts.length none)
  | [], _, _ => rfl
  | g :: rest, cls, h => by
    have hg : g = GtH.absent := h g (List.mem_cons_self g rest)
    have ih := buildGtMeta_absent md axis rest (cls + 1)
      (fun x hx => h x (List.mem_cons_of_mem g hx))
    subst hg
    simp only [buildGtMeta, buildGtEntry, ih]
    rfl

theorem backfillGtMeta_absent (k : ℕ) :
    backfillGtMeta (List.replicate (k + 1) (none : Option GtME)) =
      .error .indexError := by
  have hf : List.filter pyTruthy
      (none :: List.replicate k (none : Option GtME)) = [] := by
    rw [List.filter_eq_nil_iff]
    intro a ha
    rcases List.mem_cons.mp ha with h | h
    · rw [h]; simp [pyTruthy]
    · rw [List.eq_of_mem_replicate h]; simp [pyTruthy]
  simp only [backfillGtMeta, List.length_replicate,
    List.range_succ_eq_map, List.foldlM_cons]
  rw [show List.replicate (k + 1) (none : Option GtME) =
    none :: List.replicate k none from rfl]
  simp only [hf]
  rfl

/-- Claim C10 — a Pair whose ground-truth list is non-empty and all
absent makes `get_pair_metadata` fail with an `IndexError` (the back-fill
step indexes `list(filter(None, gt_meta_dict))[0]` on an empty filtered
list), and `get_pair_slice`, which calls it first, fails the same way. -/
theorem claim_C10 (pr : Pair) (si : ℕ) (coord : Option (List ℕ))
    (gt_type : String) (hne : pr.gts ≠ [])
    (hall : ∀ g ∈ pr.gts, g = GtH.absent) :
    getPairMetadata pr si coord = .error .indexError ∧
    getPairSlice pr si gt_type = .error .indexError := by
  obtain ⟨g0, rest, hgts⟩ : ∃ g0 rest, pr.gts = g0 :: rest := by
    cases h : pr.gts with
    | nil => exact absurd h hne
    | cons a l => exact ⟨a, l, rfl⟩
  have hb := buildGtMeta_absent pr.metadata pr.slice_axis pr.gts 0 hall
  have hlen : pr.gts.length = rest.length + 1 := by
    rw [hgts]; rfl
  rw [hlen] at hb
  have hbf := backfillGtMeta_absent rest.length
  have hmd : getPairMetadata pr si coord = .error .indexError := by
    simp only [getPairMetadata, hb, hbf]
  refine ⟨hmd, ?_⟩
  have hmd2 : getPairMetadata pr si none = .error .indexError := by
    simp only [getPairMetadata, hb, hbf]
  simp only [getPairSlice, hmd2]

/-- Claim C10 — witness: one input channel and a single absent
ground-truth class make both queries fail with an `IndexError`. -/
theorem claim_C10_witness :
    getPairMetadata ⟨[("t2", ⟨[1, 1, 1], [1, 1, 1], eye4, [0]⟩)],
        [GtH.absent], 2, some [⟨none, none, none, none, none, none⟩],
        false, false⟩ 0 none = .error .indexError ∧
    getPairSlice ⟨[("t2", ⟨[1, 1, 1], [1, 1, 1], eye4, [0]⟩)],
        [GtH.absent], 2, some [⟨none, none, none, none, none, none⟩],
        false, false⟩ 0 "segmentation" = .error .indexError := by
  exact claim_C10 _ 0 none "segmentation" (List.cons_ne_nil _ _)
    (fun g hg => by rwa [List.mem_singleton] at hg)
